import Mathlib

/-!
Verification of the iso2dfd sample (Compiler/iso2dfd_dpcpp/src/iso2dfd.cpp).

Shallow embedding conventions:
* A float array is modelled as a write history: a list of (flat index, value)
  pairs, most recent write first, read through gread (last write wins, unwritten
  cells read as the allocation default 0).  Grids are indexed row-major by
  gid = row * nCols + col.
* The sample computes in IEEE float with double intermediates; the embedding
  uses exact rational arithmetic, so agreement "within tolerance" between the
  two drivers becomes exact agreement (both drivers evaluate identical
  expressions point by point).
* C loops of the form for (i = a; i < b; i++) become folds over List.range'.
  Where the source mixes signed and unsigned arithmetic, the embedding follows
  the C conversion rules on a 64-bit platform (see the comments at the wavelet
  loops and at the iteration drivers).
-/

/-- Radius of the stencil (HALF_LENGTH in the source). -/
def HALF_LENGTH : ℕ := 1

/-- Time step DT = 0.002f. -/
def DT : ℚ := 0.002

/-- Grid spacing DXY = 20.0f. -/
def DXY : ℚ := 20

/-- The constant (DT*DT)/(DXY*DXY) computed in main. -/
def dtDIVdxy : ℚ := (DT * DT) / (DXY * DXY)

/-- A wave-field or velocity array, as its write history: latest write first. -/
abbrev Grid := List (ℕ × ℚ)

/-- Reading one cell: the most recent write to that flat index, or the
allocation default 0 if never written. -/
def gread : Grid → ℕ → ℚ
  | [], _ => 0
  | (i, v) :: t, j => if j = i then v else gread t j

/-- Writing one cell (a store through a float pointer). -/
def gwrite (g : Grid) (i : ℕ) (v : ℚ) : Grid := (i, v) :: g

/-- The 12-tap source wavelet from the source.  Indices outside 0..11 are
never read by the program (s ranges over 11..0). -/
def wavelet : ℕ → ℚ
  | 0 => 0.016387336
  | 1 => -0.041464937
  | 2 => -0.067372555
  | 3 => 0.386110067
  | 4 => 0.812723635
  | 5 => 0.416998396
  | 6 => 0.076488599
  | 7 => -0.059434419
  | 8 => 0.023680172
  | 9 => 0.005611435
  | 10 => 0.001823209
  | 11 => -0.000720549
  | _ => 0

/-- Row indices visited by the wavelet loop at ring s:
for (int i = nRows/2 - s; i < nRows/2 + s; i++).
nRows is size_t and s is int, so the initializer and the bound are computed in
size_t, and the loop condition converts int i to size_t.  Hence when
nRows/2 < s the first value of i is negative, its size_t conversion is
astronomically large, the condition fails immediately and the loop body never
runs; when nRows/2 >= s the loop runs over [nRows/2 - s, nRows/2 + s).  (Grids
with nRows/2 beyond INT_MAX, where the int truncation would differ, are not
modelled.) -/
def waveletRows (nRows s : ℕ) : List ℕ :=
  if s ≤ nRows / 2 then List.range' (nRows / 2 - s) (2 * s) else []

/-- Column indices visited by the wavelet loop at ring s; same C semantics as
waveletRows. -/
def waveletCols (nCols s : ℕ) : List ℕ :=
  if s ≤ nCols / 2 then List.range' (nCols / 2 - s) (2 * s) else []

/-- The ring indices s = 11, 10, ..., 0 of the wavelet loop. -/
def waveletRings : List ℕ := (List.range 12).reverse

/-- The zero-fill part of the initialization: the nested loop over all cells
writing the constant c.  (The source writes 0.0 to prev and next and
1500*1500 to vel in one pass over all cells; the three arrays are written
independently, so the embedding uses one fold per array.) -/
def fillConst (nRows nCols : ℕ) (c : ℚ) (g : Grid) : Grid :=
  (List.range nRows).foldl
    (fun h i =>
      (List.range nCols).foldl (fun h2 k => gwrite h2 (i * nCols + k) c) h) g

/-- The wavelet-injection loop of the initialization:
for s = 11 down to 0, write wavelet[s] on the square ring window. -/
def waveletFill (nRows nCols : ℕ) (g : Grid) : Grid :=
  waveletRings.foldl
    (fun h s =>
      (waveletRows nRows s).foldl
        (fun h2 i =>
          (waveletCols nCols s).foldl
            (fun h3 k => gwrite h3 (i * nCols + k) (wavelet s)) h2) h) g

/-- The function initialize of the source (renamed: initialize is a Lean
keyword).  Returns the contents (ptr_prev, ptr_next, ptr_vel).  The base
history [] models freshly allocated arrays; every cell below nRows*nCols is
overwritten by the zero-fill loop before any read. -/
def initArrays (nRows nCols : ℕ) : Grid × Grid × Grid :=
  (waveletFill nRows nCols (fillConst nRows nCols 0 []),
   fillConst nRows nCols 0 [],
   fillConst nRows nCols ((1500 : ℚ) * 1500) [])

/-- The (i, k) coordinate pairs written by the wavelet-injection loop of
initialize, in program order (used for the implicit bounds claim). -/
def waveletWriteCoords (nRows nCols : ℕ) : List (ℕ × ℕ) :=
  waveletRings.flatMap fun s =>
    (waveletRows nRows s).flatMap fun i =>
      (waveletCols nCols s).map fun k => (i, k)

/-- One work-item of the device kernel iso_2dfd_iteration_global: given the
2D global id (gidRow, gidCol), update next at gid = gidRow*nCols + gidCol if
it is an interior point, else leave next unchanged.  The arithmetic mirrors
the source lines
  value += prev[gid+1] - 2.0*prev[gid] + prev[gid-1];
  value += prev[gid+nCols] - 2.0*prev[gid] + prev[gid-nCols];
  value *= dtDIVdxy * vel[gid];
  next[gid] = 2.0f*prev[gid] - next[gid] + value;  -/
def iso_2dfd_iteration_global (gidRow gidCol : ℕ) (next prev vel : Grid)
    (d : ℚ) (nRows nCols : ℕ) : Grid :=
  let gid := gidRow * nCols + gidCol
  if HALF_LENGTH ≤ gidCol ∧ gidCol < nCols - HALF_LENGTH ∧
     HALF_LENGTH ≤ gidRow ∧ gidRow < nRows - HALF_LENGTH then
    gwrite next gid
      (2 * gread prev gid - gread next gid +
        ((gread prev (gid + 1) - 2 * gread prev gid + gread prev (gid - 1)) +
         (gread prev (gid + nCols) - 2 * gread prev gid + gread prev (gid - nCols)))
        * (d * gread vel gid))
  else next

/-- One step of the parallel driver: the kernel dispatched over the full 2D
range (nRows, nCols).  The sequential embedding of the parallel_for runs the
work-items in row-major order (the per-point updates are pairwise
independent, so the order is immaterial; this is proved below). -/
def iso_2dfd_step_global (next prev vel : Grid) (d : ℚ) (nRows nCols : ℕ) : Grid :=
  (List.range nRows).foldl
    (fun h r =>
      (List.range nCols).foldl
        (fun h2 c => iso_2dfd_iteration_global r c h2 prev vel d nRows nCols) h)
    next

/-- The time-step loop of main over the device kernel: at step k the source
submits the kernel with the (next, prev) accessors in that order when k is
even and swapped when k is odd.  The state is the pair of physical contents
(next_base, prev_base). -/
def parallelRun (next0 prev0 vel : Grid) (d : ℚ) (nRows nCols : ℕ) : ℕ → Grid × Grid
  | 0 => (next0, prev0)
  | k + 1 =>
      let s := parallelRun next0 prev0 vel d nRows nCols k
      if k % 2 = 0 then
        (iso_2dfd_step_global s.1 s.2 vel d nRows nCols, s.2)
      else
        (s.1, iso_2dfd_step_global s.2 s.1 vel d nRows nCols)

/-- One full-grid sweep of the serial driver iso_2dfd_iteration_cpu:
for (i = 1; i < nRows - HALF_LENGTH; i++)
  for (j = 1; j < nCols - HALF_LENGTH; j++) with gid = j + i*nCols.
(nRows, nCols are int in the source; for nRows >= 1 the unsigned bound
nRows - HALF_LENGTH equals the truncated Nat subtraction used here.
nRows = 0 would make the C loop read out of bounds, undefined behaviour
that is not modelled; the embedding's loop is empty there.) -/
def cpu_sweep (next prev vel : Grid) (d : ℚ) (nRows nCols : ℕ) : Grid :=
  (List.range' 1 (nRows - HALF_LENGTH - 1)).foldl
    (fun h i =>
      (List.range' 1 (nCols - HALF_LENGTH - 1)).foldl
        (fun h2 j =>
          let gid := j + i * nCols
          gwrite h2 gid
            (2 * gread prev gid - gread h2 gid +
              ((gread prev (gid + 1) - 2 * gread prev gid + gread prev (gid - 1)) +
               (gread prev (gid + nCols) - 2 * gread prev gid + gread prev (gid - nCols)))
              * (d * gread vel gid)))
        h)
    next

/-- The serial driver iso_2dfd_iteration_cpu: nIterations sweeps, swapping
the local next/prev pointers after each sweep.  Returns the final logical
(next, prev) pair; the physical array passed as next holds component 1 after
an even number of swaps and component 2 after an odd number. -/
def iso_2dfd_iteration_cpu (vel : Grid) (d : ℚ) (nRows nCols : ℕ) :
    ℕ → Grid → Grid → Grid × Grid
  | 0, next, prev => (next, prev)
  | k + 1, next, prev =>
      iso_2dfd_iteration_cpu vel d nRows nCols k prev
        (cpu_sweep next prev vel d nRows nCols)

/-- The contents of the physical array next_cpu after the serial driver ran
for k iterations starting from (next0, prev0). -/
def cpuNextPhys (next0 prev0 vel : Grid) (d : ℚ) (nRows nCols k : ℕ) : Grid :=
  if k % 2 = 0 then (iso_2dfd_iteration_cpu vel d nRows nCols k next0 prev0).1
  else (iso_2dfd_iteration_cpu vel d nRows nCols k next0 prev0).2

/-- Result of the validator within_epsilon: the error flag it returns, the
accumulated sum of squares (the source takes sqrt of it at the end, before
printing), and the diagnostic records written to error_diff.txt, each holding
(ix, iy, output value, reference value, difference) in emission order. -/
structure EpsilonResult where
  error : Bool
  norm2 : ℚ
  log : List (ℕ × ℕ × ℚ × ℚ × ℚ)
deriving DecidableEq

/-- The validator within_epsilon.  The source walks output and reference with
incrementing pointers in the doubly nested loop (iy outer to dimy, ix inner
to dimx), so the cell read at (iy, ix) is flat index iy * dimx + ix.  The
difference is fabsf(*reference - *output); norm2 accumulates difference^2 for
every visited cell passing the radius window test; a record is emitted and
error set when difference > delta. -/
def within_epsilon (output reference : Grid) (dimx dimy radius : ℕ)
    (delta : ℚ) : EpsilonResult :=
  (List.range dimy).foldl
    (fun acc iy =>
      (List.range dimx).foldl
        (fun acc2 ix =>
          if radius ≤ ix ∧ ix < dimx - radius ∧
             radius ≤ iy ∧ iy < dimy - radius then
            let p := iy * dimx + ix
            let difference := |gread reference p - gread output p|
            let n2 := acc2.norm2 + difference * difference
            if delta < difference then
              { error := true, norm2 := n2,
                log := acc2.log ++ [(ix, iy, gread output p, gread reference p, difference)] }
            else
              { acc2 with norm2 := n2 }
          else acc2)
        acc)
    { error := false, norm2 := 0, log := [] }

/-- C isspace characters (the whitespace std::stoi skips). -/
def isCSpace (c : Char) : Bool :=
  c = ' ' || c = '\t' || c = '\n' || c = '\r' ||
  c = Char.ofNat 11 || c = Char.ofNat 12

/-- Numeric value of a digit string. -/
def digitsToNat (ds : List Char) : ℕ :=
  ds.foldl (fun acc c => acc * 10 + (c.toNat - 48)) 0

/-- Model of std::stoi on a C string (as a list of characters), restricted to
what main needs: skip C whitespace, an optional sign, then base-10 digits;
none models a thrown exception (invalid_argument when there are no digits,
out_of_range when the value exceeds the int range). -/
def stoiModel (s : List Char) : Option ℤ :=
  let t := s.dropWhile isCSpace
  let sr : ℤ × List Char :=
    match t with
    | '-' :: r => (-1, r)
    | '+' :: r => (1, r)
    | r => (1, r)
  let ds := sr.2.takeWhile Char.isDigit
  if ds.isEmpty then none
  else
    let v : ℤ := sr.1 * digitsToNat ds
    if v < -2147483648 ∨ 2147483647 < v then none else some v

/-- Fetching argv[i] and converting through std::stoi.  A missing argument
reads argv[argc] = NULL; constructing std::string from a null char pointer
makes libstdc++ throw std::logic_error, which the catch-all in main catches
just like the stoi exceptions, so it is modelled by none as well. -/
def argToInt (argv : List String) (i : ℕ) : Option ℤ :=
  (argv.get? i).bind fun s => stoiModel s.toList

/-- The argument parsing of main: nRows = stoi(argv[1]), nCols = stoi(argv[2]),
nIterations = stoi(argv[3]); any exception lands in the catch block. -/
def parseArgs (argv : List String) : Option (ℤ × ℤ × ℤ) :=
  match argToInt argv 1, argToInt argv 2, argToInt argv 3 with
  | some a, some b, some c => some (a, b, c)
  | _, _, _ => none

/-- Observable outcome of a run of main. -/
structure MainResult where
  usagePrinted : Bool
  exitCode : ℕ
  validatorError : Option Bool
deriving DecidableEq

/-- The end-to-end behaviour of main: parse the three arguments (on failure
print usage and return 1); otherwise initialize, run the device driver for
nIterations steps, re-initialize and run the serial driver, compare the
physical arrays next_base and next_cpu with
within_epsilon(next_base, next_cpu, nRows, nCols, HALF_LENGTH, 0.1f) and
return error ? 1 : 0.  The int results of stoi are converted as the source
does: to size_t for the grid sizes and to unsigned int for the iteration
count.  (Runs the real machine cannot complete, such as a negative first
argument forcing an astronomic allocation, are still total here; the claims
conditioned on completed runs are unaffected.) -/
def mainModel (argv : List String) : MainResult :=
  match parseArgs argv with
  | none => { usagePrinted := true, exitCode := 1, validatorError := none }
  | some (a, b, c) =>
      let nRows := (a % (2 : ℤ) ^ 64).toNat
      let nCols := (b % (2 : ℤ) ^ 64).toNat
      let nIter := (c % (2 : ℤ) ^ 32).toNat
      let ini := initArrays nRows nCols
      let par := parallelRun ini.2.1 ini.1 ini.2.2 dtDIVdxy nRows nCols nIter
      let cpuNext := cpuNextPhys ini.2.1 ini.1 ini.2.2 dtDIVdxy nRows nCols nIter
      let r := within_epsilon par.1 cpuNext nRows nCols HALF_LENGTH (1 / 10)
      { usagePrinted := false,
        exitCode := if r.error then 1 else 0,
        validatorError := some r.error }

/-! ### Generic machinery: reading the result of nested write loops

Both drivers, the zero-fill loop and the wavelet loop are doubly nested loops
whose body either writes one cell (at i * nC + j, with a value depending only
on that cell's current content and on arrays not written by the loop) or
leaves the grid unchanged.  The lemmas below characterise every read of such
a fold. -/

theorem gread_gwrite (g : Grid) (i : ℕ) (v : ℚ) (j : ℕ) :
    gread (gwrite g i v) j = if j = i then v else gread g j := rfl

/-- Row-major flat indices are injective as long as columns are in range. -/
theorem gid_inj {nC i i' j j' : ℕ} (hj : j < nC) (hj' : j' < nC)
    (h : i * nC + j = i' * nC + j') : i = i' ∧ j = j' := by
  have hpos : 0 < nC := by omega
  have d1 : ∀ a b : ℕ, b < nC → (a * nC + b) / nC = a := by
    intro a b hb
    rw [Nat.mul_comm, Nat.mul_add_div hpos, Nat.div_eq_of_lt hb, Nat.add_zero]
  have m1 : ∀ a b : ℕ, b < nC → (a * nC + b) % nC = b := by
    intro a b hb
    rw [Nat.mul_comm, Nat.mul_add_mod, Nat.mod_eq_of_lt hb]
  constructor
  · have := d1 i j hj
    rw [h, d1 i' j' hj'] at this
    omega
  · have := m1 i j hj
    rw [h, m1 i' j' hj'] at this
    omega

section FoldChar

variable {w : ℕ} {P : ℕ → ℕ → Prop} [∀ i j, Decidable (P i j)]
variable {F : ℕ → ℕ → ℚ → ℚ} {b : Grid → ℕ → ℕ → Grid}

/-- A cell no guarded write targets is unchanged by the inner loop. -/
theorem inner_fold_untouched
    (hbody : ∀ g i j, b g i j =
      if P i j then gwrite g (i * w + j) (F i j (gread g (i * w + j))) else g)
    (i : ℕ) (cols : List ℕ) (g : Grid) (q : ℕ)
    (hq : ∀ j ∈ cols, P i j → q ≠ i * w + j) :
    gread (cols.foldl (fun h2 j => b h2 i j) g) q = gread g q := by
  induction cols generalizing g with
  | nil => rfl
  | cons j0 rest ih =>
      rw [List.foldl_cons,
        ih _ (fun j hj hp => hq j (List.mem_cons_of_mem _ hj) hp), hbody]
      split
      · next hp => rw [gread_gwrite, if_neg (hq j0 (List.mem_cons_self _ _) hp)]
      · rfl

/-- Reading the cell of one inner-loop index: the guarded write is applied to
the value the cell had when the loop began. -/
theorem inner_fold_hit
    (hbody : ∀ g i j, b g i j =
      if P i j then gwrite g (i * w + j) (F i j (gread g (i * w + j))) else g)
    (i : ℕ) (cols : List ℕ) (hcols : cols.Nodup) (g : Grid) (j : ℕ)
    (hj : j ∈ cols) :
    gread (cols.foldl (fun h2 j2 => b h2 i j2) g) (i * w + j) =
      if P i j then F i j (gread g (i * w + j)) else gread g (i * w + j) := by
  induction cols generalizing g with
  | nil => cases hj
  | cons j0 rest ih =>
      rw [List.foldl_cons]
      rcases List.mem_cons.mp hj with rfl | hmem
      · have hrest : ∀ j2 ∈ rest, P i j2 → i * w + j ≠ i * w + j2 := by
          intro j2 hj2 _ he
          have : j = j2 := by omega
          exact (List.nodup_cons.mp hcols).1 (this ▸ hj2)
        rw [inner_fold_untouched hbody i rest _ _ hrest, hbody]
        split
        · rw [gread_gwrite, if_pos rfl]
        · rfl
      · have hne : j ≠ j0 := fun e => (List.nodup_cons.mp hcols).1 (e ▸ hmem)
        rw [ih (List.nodup_cons.mp hcols).2 _ hmem]
        have hbase : gread (b g i j0) (i * w + j) = gread g (i * w + j) := by
          rw [hbody]
          split
          · rw [gread_gwrite, if_neg (by omega)]
          · rfl
        rw [hbase]

/-- A cell no guarded write targets is unchanged by the whole nested loop. -/
theorem nested_fold_untouched
    (hbody : ∀ g i j, b g i j =
      if P i j then gwrite g (i * w + j) (F i j (gread g (i * w + j))) else g)
    (rows cols : List ℕ) (g : Grid) (q : ℕ)
    (hq : ∀ i ∈ rows, ∀ j ∈ cols, P i j → q ≠ i * w + j) :
    gread (rows.foldl (fun h i => cols.foldl (fun h2 j => b h2 i j) h) g) q
      = gread g q := by
  induction rows generalizing g with
  | nil => rfl
  | cons i0 rest ih =>
      rw [List.foldl_cons, ih _ (fun i hi => hq i (List.mem_cons_of_mem _ hi))]
      exact inner_fold_untouched hbody i0 cols g q (hq i0 (List.mem_cons_self _ _))

/-- Reading any targeted cell of the nested loop: writes to distinct cells do
not interfere, so the cell holds the guarded update of its initial value. -/
theorem nested_fold_hit
    (hbody : ∀ g i j, b g i j =
      if P i j then gwrite g (i * w + j) (F i j (gread g (i * w + j))) else g)
    (rows cols : List ℕ) (hrows : rows.Nodup) (hcols : cols.Nodup)
    (hcb : ∀ j ∈ cols, j < w) (g : Grid) (i j : ℕ)
    (hi : i ∈ rows) (hj : j ∈ cols) :
    gread (rows.foldl (fun h i2 => cols.foldl (fun h2 j2 => b h2 i2 j2) h) g)
        (i * w + j) =
      if P i j then F i j (gread g (i * w + j)) else gread g (i * w + j) := by
  induction rows generalizing g with
  | nil => cases hi
  | cons i0 rest ih =>
      rw [List.foldl_cons]
      rcases List.mem_cons.mp hi with rfl | hmem
      · have hrest : ∀ i2 ∈ rest, ∀ j2 ∈ cols, P i2 j2 → i * w + j ≠ i2 * w + j2 := by
          intro i2 hi2 j2 hj2 _ he
          obtain ⟨e1, _⟩ := gid_inj (hcb j hj) (hcb j2 hj2) he
          exact (List.nodup_cons.mp hrows).1 (e1 ▸ hi2)
        rw [nested_fold_untouched hbody rest cols _ _ hrest]
        exact inner_fold_hit hbody i cols hcols g j hj
      · have hne : i ≠ i0 := fun e => (List.nodup_cons.mp hrows).1 (e ▸ hmem)
        rw [ih (List.nodup_cons.mp hrows).2 _ hmem]
        have hbase : gread (cols.foldl (fun h2 j2 => b h2 i0 j2) g) (i * w + j)
            = gread g (i * w + j) := by
          apply inner_fold_untouched hbody
          intro j2 hj2 _ he
          obtain ⟨e1, _⟩ := gid_inj (hcb j hj) (hcb j2 hj2) he
          exact hne e1
        rw [hbase]

end FoldChar

/-! ### Reads of one sweep of either driver -/

/-- The value the stencil stores at flat index gid, in terms of the grids it
reads (next is read at gid only, before the store). -/
def stencilNew (next prev vel : Grid) (d : ℚ) (nC gid : ℕ) : ℚ :=
  2 * gread prev gid - gread next gid +
    ((gread prev (gid + 1) - 2 * gread prev gid + gread prev (gid - 1)) +
     (gread prev (gid + nC) - 2 * gread prev gid + gread prev (gid - nC)))
    * (d * gread vel gid)

theorem mem_cpu_range {n i : ℕ} (h1 : 1 ≤ i) (h2 : i < n - 1) :
    i ∈ List.range' 1 (n - HALF_LENGTH - 1) := by
  rw [List.mem_range'_1]
  have : HALF_LENGTH = 1 := rfl
  omega

theorem mem_cpu_range_bounds {n i : ℕ} (h : i ∈ List.range' 1 (n - HALF_LENGTH - 1)) :
    1 ≤ i ∧ i < n - 1 := by
  rw [List.mem_range'_1] at h
  have : HALF_LENGTH = 1 := rfl
  omega

/-- Reading an interior cell after one serial sweep: the stencil value
computed from the original next content of that cell. -/
theorem cpu_sweep_hit (next prev vel : Grid) (d : ℚ) (nR nC i j : ℕ)
    (hi1 : 1 ≤ i) (hi2 : i < nR - 1) (hj1 : 1 ≤ j) (hj2 : j < nC - 1) :
    gread (cpu_sweep next prev vel d nR nC) (i * nC + j) =
      stencilNew next prev vel d nC (i * nC + j) := by
  have h := nested_fold_hit (w := nC) (P := fun _ _ => True)
    (F := fun i2 j2 x =>
      2 * gread prev (i2 * nC + j2) - x +
        ((gread prev (i2 * nC + j2 + 1) - 2 * gread prev (i2 * nC + j2) +
            gread prev (i2 * nC + j2 - 1)) +
         (gread prev (i2 * nC + j2 + nC) - 2 * gread prev (i2 * nC + j2) +
            gread prev (i2 * nC + j2 - nC)))
        * (d * gread vel (i2 * nC + j2)))
    (b := fun g i2 j2 =>
      gwrite g (j2 + i2 * nC)
        (2 * gread prev (j2 + i2 * nC) - gread g (j2 + i2 * nC) +
          ((gread prev (j2 + i2 * nC + 1) - 2 * gread prev (j2 + i2 * nC) +
              gread prev (j2 + i2 * nC - 1)) +
           (gread prev (j2 + i2 * nC + nC) - 2 * gread prev (j2 + i2 * nC) +
              gread prev (j2 + i2 * nC - nC)))
          * (d * gread vel (j2 + i2 * nC))))
    (by
      intro g i2 j2
      rw [if_pos trivial]
      beta_reduce
      rw [Nat.add_comm j2 (i2 * nC)])
    (List.range' 1 (nR - HALF_LENGTH - 1)) (List.range' 1 (nC - HALF_LENGTH - 1))
    (List.nodup_range' _ _) (List.nodup_range' _ _)
    (fun j2 hj2top => by
      have := mem_cpu_range_bounds hj2top
      omega)
    next i j (mem_cpu_range hi1 hi2) (mem_cpu_range hj1 hj2)
  rw [if_pos trivial] at h
  exact h

/-- A cell that is not an interior cell written by the serial sweep keeps its
content. -/
theorem cpu_sweep_untouched (next prev vel : Grid) (d : ℚ) (nR nC q : ℕ)
    (hq : ∀ i j, 1 ≤ i → i < nR - 1 → 1 ≤ j → j < nC - 1 → q ≠ i * nC + j) :
    gread (cpu_sweep next prev vel d nR nC) q = gread next q := by
  exact nested_fold_untouched (w := nC) (P := fun _ _ => True)
    (F := fun i2 j2 x =>
      2 * gread prev (i2 * nC + j2) - x +
        ((gread prev (i2 * nC + j2 + 1) - 2 * gread prev (i2 * nC + j2) +
            gread prev (i2 * nC + j2 - 1)) +
         (gread prev (i2 * nC + j2 + nC) - 2 * gread prev (i2 * nC + j2) +
            gread prev (i2 * nC + j2 - nC)))
        * (d * gread vel (i2 * nC + j2)))
    (b := fun g i2 j2 =>
      gwrite g (j2 + i2 * nC)
        (2 * gread prev (j2 + i2 * nC) - gread g (j2 + i2 * nC) +
          ((gread prev (j2 + i2 * nC + 1) - 2 * gread prev (j2 + i2 * nC) +
              gread prev (j2 + i2 * nC - 1)) +
           (gread prev (j2 + i2 * nC + nC) - 2 * gread prev (j2 + i2 * nC) +
              gread prev (j2 + i2 * nC - nC)))
          * (d * gread vel (j2 + i2 * nC))))
    (by
      intro g i2 j2
      rw [if_pos trivial]
      beta_reduce
      rw [Nat.add_comm j2 (i2 * nC)])
    (List.range' 1 (nR - HALF_LENGTH - 1)) (List.range' 1 (nC - HALF_LENGTH - 1))
    next q
    (fun i hi j hj _ => by
      have hib := mem_cpu_range_bounds hi
      have hjb := mem_cpu_range_bounds hj
      exact hq i j hib.1 hib.2 hjb.1 hjb.2)

/-- The interior guard of the device kernel. -/
def kernelInterior (nR nC r c : ℕ) : Prop :=
  HALF_LENGTH ≤ c ∧ c < nC - HALF_LENGTH ∧ HALF_LENGTH ≤ r ∧ r < nR - HALF_LENGTH

instance (nR nC r c : ℕ) : Decidable (kernelInterior nR nC r c) := by
  unfold kernelInterior
  infer_instance

/-- Reading an interior cell after one full device dispatch: the same stencil
value as the serial sweep. -/
theorem step_global_hit (next prev vel : Grid) (d : ℚ) (nR nC r c : ℕ)
    (hr1 : 1 ≤ r) (hr2 : r < nR - 1) (hc1 : 1 ≤ c) (hc2 : c < nC - 1) :
    gread (iso_2dfd_step_global next prev vel d nR nC) (r * nC + c) =
      stencilNew next prev vel d nC (r * nC + c) := by
  have h := nested_fold_hit (w := nC) (P := fun r2 c2 => kernelInterior nR nC r2 c2)
    (F := fun r2 c2 x =>
      2 * gread prev (r2 * nC + c2) - x +
        ((gread prev (r2 * nC + c2 + 1) - 2 * gread prev (r2 * nC + c2) +
            gread prev (r2 * nC + c2 - 1)) +
         (gread prev (r2 * nC + c2 + nC) - 2 * gread prev (r2 * nC + c2) +
            gread prev (r2 * nC + c2 - nC)))
        * (d * gread vel (r2 * nC + c2)))
    (b := fun g r2 c2 => iso_2dfd_iteration_global r2 c2 g prev vel d nR nC)
    (fun g r2 c2 => rfl)
    (List.range nR) (List.range nC) (List.nodup_range _) (List.nodup_range _)
    (fun c2 hc2' => List.mem_range.mp hc2')
    next r c (List.mem_range.mpr (by omega)) (List.mem_range.mpr (by omega))
  rw [if_pos ?side] at h
  · exact h
  · constructor
    · show HALF_LENGTH ≤ c
      have : HALF_LENGTH = 1 := rfl
      omega
    · refine ⟨?_, ?_, ?_⟩ <;> (have : HALF_LENGTH = 1 := rfl; omega)

/-- A cell that is not an interior cell keeps its content across one device
dispatch. -/
theorem step_global_untouched (next prev vel : Grid) (d : ℚ) (nR nC q : ℕ)
    (hq : ∀ r c, 1 ≤ r → r < nR - 1 → 1 ≤ c → c < nC - 1 → q ≠ r * nC + c) :
    gread (iso_2dfd_step_global next prev vel d nR nC) q = gread next q := by
  exact nested_fold_untouched (w := nC) (P := fun r2 c2 => kernelInterior nR nC r2 c2)
    (F := fun r2 c2 x =>
      2 * gread prev (r2 * nC + c2) - x +
        ((gread prev (r2 * nC + c2 + 1) - 2 * gread prev (r2 * nC + c2) +
            gread prev (r2 * nC + c2 - 1)) +
         (gread prev (r2 * nC + c2 + nC) - 2 * gread prev (r2 * nC + c2) +
            gread prev (r2 * nC + c2 - nC)))
        * (d * gread vel (r2 * nC + c2)))
    (b := fun g r2 c2 => iso_2dfd_iteration_global r2 c2 g prev vel d nR nC)
    (fun g r2 c2 => rfl)
    (List.range nR) (List.range nC) next q
    (fun r hr c hc hP => by
      obtain ⟨p1, p2, p3, p4⟩ := hP
      have : HALF_LENGTH = 1 := rfl
      exact hq r c (by omega) (by omega) (by omega) (by omega))

/-! ### Pointwise equality of grids and cross-mode equivalence -/

/-- Two write histories denote the same array. -/
def geq (g1 g2 : Grid) : Prop := ∀ q, gread g1 q = gread g2 q

theorem geq_refl (g : Grid) : geq g g := fun _ => rfl

theorem stencilNew_congr {next next' prev prev' vel vel' : Grid} (d : ℚ)
    (nC gid : ℕ) (hn : gread next gid = gread next' gid)
    (hp : geq prev prev') (hv : geq vel vel') :
    stencilNew next prev vel d nC gid = stencilNew next' prev' vel' d nC gid := by
  unfold stencilNew
  rw [hn, hp gid, hp (gid + 1), hp (gid - 1), hp (gid + nC), hp (gid - nC), hv gid]

/-- One serial sweep and one device dispatch agree at every cell (started
from arrays with equal contents): the interior cells receive the same stencil
value, every other cell is untouched by both. -/
theorem cpu_sweep_geq_step_global {next next' prev prev' vel vel' : Grid}
    (d : ℚ) (nR nC : ℕ) (hn : geq next next') (hp : geq prev prev')
    (hv : geq vel vel') :
    geq (cpu_sweep next prev vel d nR nC)
        (iso_2dfd_step_global next' prev' vel' d nR nC) := by
  intro q
  by_cases hint : 1 ≤ q % nC ∧ q % nC < nC - 1 ∧ 1 ≤ q / nC ∧ q / nC < nR - 1
  · obtain ⟨h1, h2, h3, h4⟩ := hint
    have hdecomp : (q / nC) * nC + q % nC = q := by
      rw [Nat.mul_comm]
      exact Nat.div_add_mod q nC
    rw [← hdecomp, cpu_sweep_hit _ _ _ _ _ _ _ _ h3 h4 h1 h2,
        step_global_hit _ _ _ _ _ _ _ _ h3 h4 h1 h2]
    exact stencilNew_congr d nC _ (hn _) hp hv
  · have huntouched : ∀ i j, 1 ≤ i → i < nR - 1 → 1 ≤ j → j < nC - 1 →
        q ≠ i * nC + j := by
      intro i j hi1 hi2 hj1 hj2 he
      have hjlt : j < nC := by omega
      have em : (i * nC + j) % nC = j := by
        rw [Nat.mul_comm, Nat.mul_add_mod, Nat.mod_eq_of_lt hjlt]
      have ed : (i * nC + j) / nC = i := by
        rw [Nat.mul_comm, Nat.mul_add_div (by omega), Nat.div_eq_of_lt hjlt,
          Nat.add_zero]
      subst he
      rw [em, ed] at hint
      exact hint ⟨hj1, hj2, hi1, hi2⟩
    rw [cpu_sweep_untouched _ _ _ _ _ _ _ huntouched,
        step_global_untouched _ _ _ _ _ _ _ huntouched]
    exact hn q

/-- Unfolding the serial driver from the far end: k+1 iterations are k
iterations followed by one sweep-and-swap. -/
theorem cpu_loop_last (vel : Grid) (d : ℚ) (nR nC k : ℕ) (next prev : Grid) :
    iso_2dfd_iteration_cpu vel d nR nC (k + 1) next prev =
      ((iso_2dfd_iteration_cpu vel d nR nC k next prev).2,
       cpu_sweep (iso_2dfd_iteration_cpu vel d nR nC k next prev).1
         (iso_2dfd_iteration_cpu vel d nR nC k next prev).2 vel d nR nC) := by
  induction k generalizing next prev with
  | zero => rfl
  | succ k ih =>
      have e1 : iso_2dfd_iteration_cpu vel d nR nC (k + 1 + 1) next prev =
          iso_2dfd_iteration_cpu vel d nR nC (k + 1) prev
            (cpu_sweep next prev vel d nR nC) := rfl
      have e2 : iso_2dfd_iteration_cpu vel d nR nC (k + 1) next prev =
          iso_2dfd_iteration_cpu vel d nR nC k prev
            (cpu_sweep next prev vel d nR nC) := rfl
      rw [e1, e2, ih]

theorem parallelRun_succ (next0 prev0 vel : Grid) (d : ℚ) (nR nC k : ℕ) :
    parallelRun next0 prev0 vel d nR nC (k + 1) =
      if k % 2 = 0 then
        (iso_2dfd_step_global (parallelRun next0 prev0 vel d nR nC k).1
           (parallelRun next0 prev0 vel d nR nC k).2 vel d nR nC,
         (parallelRun next0 prev0 vel d nR nC k).2)
      else
        ((parallelRun next0 prev0 vel d nR nC k).1,
         iso_2dfd_step_global (parallelRun next0 prev0 vel d nR nC k).2
           (parallelRun next0 prev0 vel d nR nC k).1 vel d nR nC) := rfl

/-- Both components agree pointwise. -/
def pairGeq (a b : Grid × Grid) : Prop := geq a.1 b.1 ∧ geq a.2 b.2

/-- The serial driver's logical (next, prev) pair tracks the parallel
driver's physical (next_base, prev_base) pair, with the roles swapped after
every odd number of steps. -/
theorem par_cpu_invariant (next0 prev0 vel : Grid) (d : ℚ) (nR nC : ℕ) :
    ∀ k : ℕ,
      (k % 2 = 0 → pairGeq (iso_2dfd_iteration_cpu vel d nR nC k next0 prev0)
                           (parallelRun next0 prev0 vel d nR nC k)) ∧
      (k % 2 = 1 → pairGeq (iso_2dfd_iteration_cpu vel d nR nC k next0 prev0)
                           ((parallelRun next0 prev0 vel d nR nC k).2,
                            (parallelRun next0 prev0 vel d nR nC k).1)) := by
  intro k
  induction k with
  | zero => exact ⟨fun _ => ⟨geq_refl _, geq_refl _⟩, fun h => by omega⟩
  | succ k ih =>
      rw [cpu_loop_last, parallelRun_succ]
      by_cases hk : k % 2 = 0
      · obtain ⟨g1, g2⟩ := ih.1 hk
        rw [if_pos hk]
        refine ⟨fun h => by omega, fun _ => ⟨g2, ?_⟩⟩
        exact cpu_sweep_geq_step_global d nR nC g1 g2 (geq_refl vel)
      · have hk1 : k % 2 = 1 := by omega
        obtain ⟨g1, g2⟩ := ih.2 hk1
        rw [if_neg hk]
        refine ⟨fun _ => ⟨g2, ?_⟩, fun h => by omega⟩
        exact cpu_sweep_geq_step_global d nR nC g1 g2 (geq_refl vel)

/-- The two arrays the program finally compares and dumps, next_cpu and
next_base, hold pointwise equal contents after any number of steps. -/
theorem dumps_agree (next0 prev0 vel : Grid) (d : ℚ) (nR nC k : ℕ) :
    geq (cpuNextPhys next0 prev0 vel d nR nC k)
        (parallelRun next0 prev0 vel d nR nC k).1 := by
  unfold cpuNextPhys
  by_cases hk : k % 2 = 0
  · rw [if_pos hk]
    exact ((par_cpu_invariant next0 prev0 vel d nR nC k).1 hk).1
  · rw [if_neg hk]
    have hk1 : k % 2 = 1 := by omega
    exact ((par_cpu_invariant next0 prev0 vel d nR nC k).2 hk1).2


/-! ### Characterisation of the validator -/

/-- The cells the validator visits, as (iy, ix) pairs in scan order. -/
def scanPoints (dimx dimy : ℕ) : List (ℕ × ℕ) :=
  (List.range dimy).flatMap fun iy => (List.range dimx).map fun ix => (iy, ix)

/-- A doubly nested fold is the fold over the row-major pair list. -/
theorem foldl_nested_pairs {σ : Type} (step : σ → ℕ → ℕ → σ)
    (ys xs : List ℕ) (s0 : σ) :
    ys.foldl (fun s iy => xs.foldl (fun s2 ix => step s2 iy ix) s) s0 =
      (ys.flatMap fun iy => xs.map fun ix => (iy, ix)).foldl
        (fun s p => step s p.1 p.2) s0 := by
  induction ys generalizing s0 with
  | nil => rfl
  | cons iy rest ih =>
      rw [List.foldl_cons, List.flatMap_cons, List.foldl_append, List.foldl_map, ih]

/-- The window test of the validator at the visited cell q = (iy, ix). -/
def veInterior (dimx dimy radius : ℕ) (q : ℕ × ℕ) : Prop :=
  radius ≤ q.2 ∧ q.2 < dimx - radius ∧ radius ≤ q.1 ∧ q.1 < dimy - radius

instance (dimx dimy radius : ℕ) (q : ℕ × ℕ) :
    Decidable (veInterior dimx dimy radius q) := by
  unfold veInterior
  infer_instance

/-- The absolute difference the validator computes at the visited cell. -/
def veDiff (output reference : Grid) (dimx : ℕ) (q : ℕ × ℕ) : ℚ :=
  |gread reference (q.1 * dimx + q.2) - gread output (q.1 * dimx + q.2)|

/-- The contribution of one visited cell to the accumulated sum of squares. -/
def veContrib (output reference : Grid) (dimx dimy radius : ℕ) (q : ℕ × ℕ) : ℚ :=
  if veInterior dimx dimy radius q then
    veDiff output reference dimx q * veDiff output reference dimx q
  else 0

/-- Whether one visited cell makes the validator flag an error. -/
def veOffending (output reference : Grid) (dimx dimy radius : ℕ) (delta : ℚ)
    (q : ℕ × ℕ) : Prop :=
  veInterior dimx dimy radius q ∧ delta < veDiff output reference dimx q

instance (output reference : Grid) (dimx dimy radius : ℕ) (delta : ℚ)
    (q : ℕ × ℕ) :
    Decidable (veOffending output reference dimx dimy radius delta q) := by
  unfold veOffending
  infer_instance

/-- Boolean form of the offence test. -/
def veOffendingB (output reference : Grid) (dimx dimy radius : ℕ) (delta : ℚ)
    (q : ℕ × ℕ) : Bool :=
  decide (veInterior dimx dimy radius q) &&
  decide (delta < veDiff output reference dimx q)

/-- The diagnostic record one visited cell emits, if any. -/
def veRecord (output reference : Grid) (dimx dimy radius : ℕ) (delta : ℚ)
    (q : ℕ × ℕ) : Option (ℕ × ℕ × ℚ × ℚ × ℚ) :=
  if veOffending output reference dimx dimy radius delta q then
    some (q.2, q.1, gread output (q.1 * dimx + q.2),
          gread reference (q.1 * dimx + q.2), veDiff output reference dimx q)
  else none

/-- Complete characterisation of the validator state over any flat list of
visited cells. -/
theorem ve_flat_char (output reference : Grid) (dimx dimy radius : ℕ)
    (delta : ℚ) (pts : List (ℕ × ℕ)) (acc : EpsilonResult) :
    pts.foldl
      (fun acc2 q =>
        if radius ≤ q.2 ∧ q.2 < dimx - radius ∧
           radius ≤ q.1 ∧ q.1 < dimy - radius then
          let p := q.1 * dimx + q.2
          let difference := |gread reference p - gread output p|
          let n2 := acc2.norm2 + difference * difference
          if delta < difference then
            { error := true, norm2 := n2,
              log := acc2.log ++ [(q.2, q.1, gread output p, gread reference p, difference)] }
          else
            { acc2 with norm2 := n2 }
        else acc2) acc =
      { error := acc.error ||
          pts.any (veOffendingB output reference dimx dimy radius delta),
        norm2 := acc.norm2 +
          (pts.map (veContrib output reference dimx dimy radius)).sum,
        log := acc.log ++
          pts.filterMap (veRecord output reference dimx dimy radius delta) } := by
  induction pts generalizing acc with
  | nil => simp
  | cons q rest ih =>
      rw [List.foldl_cons, ih, List.any_cons, List.map_cons, List.sum_cons,
        List.filterMap_cons]
      by_cases hin : veInterior dimx dimy radius q
      · have hin' : radius ≤ q.2 ∧ q.2 < dimx - radius ∧
            radius ≤ q.1 ∧ q.1 < dimy - radius := hin
        rw [if_pos hin']
        by_cases hoff : delta < veDiff output reference dimx q
        · have hoffp : delta <
              |gread reference (q.1 * dimx + q.2) - gread output (q.1 * dimx + q.2)| := hoff
          simp only [if_pos hoffp]
          simp [veOffendingB, veOffending, veRecord, veContrib, veDiff, hin, hoffp,
            add_assoc, List.append_assoc]
        · have hoffp : ¬ delta <
              |gread reference (q.1 * dimx + q.2) - gread output (q.1 * dimx + q.2)| := hoff
          simp only [if_neg hoffp]
          simp [veOffendingB, veOffending, veRecord, veContrib, veDiff, hin, hoffp,
            add_assoc]
      · have hin' : ¬ (radius ≤ q.2 ∧ q.2 < dimx - radius ∧
            radius ≤ q.1 ∧ q.1 < dimy - radius) := hin
        rw [if_neg hin']
        simp [veOffendingB, veOffending, veRecord, veContrib, hin, add_assoc]

/-- within_epsilon in closed form: error flag, sum of squares and log over
the scan-ordered visited cells. -/
theorem within_epsilon_eq_flat (output reference : Grid) (dimx dimy radius : ℕ)
    (delta : ℚ) :
    within_epsilon output reference dimx dimy radius delta =
      { error := (scanPoints dimx dimy).any
          (veOffendingB output reference dimx dimy radius delta),
        norm2 := ((scanPoints dimx dimy).map
          (veContrib output reference dimx dimy radius)).sum,
        log := (scanPoints dimx dimy).filterMap
          (veRecord output reference dimx dimy radius delta) } := by
  have h := ve_flat_char output reference dimx dimy radius delta
    (scanPoints dimx dimy) { error := false, norm2 := 0, log := [] }
  simp only [Bool.false_or, zero_add, List.nil_append] at h
  rw [← h]
  exact foldl_nested_pairs _ _ _ _

theorem within_epsilon_error (output reference : Grid) (dimx dimy radius : ℕ)
    (delta : ℚ) :
    (within_epsilon output reference dimx dimy radius delta).error =
      (scanPoints dimx dimy).any
        (veOffendingB output reference dimx dimy radius delta) := by
  rw [within_epsilon_eq_flat]

theorem within_epsilon_norm2 (output reference : Grid) (dimx dimy radius : ℕ)
    (delta : ℚ) :
    (within_epsilon output reference dimx dimy radius delta).norm2 =
      ((scanPoints dimx dimy).map
        (veContrib output reference dimx dimy radius)).sum := by
  rw [within_epsilon_eq_flat]

theorem within_epsilon_log (output reference : Grid) (dimx dimy radius : ℕ)
    (delta : ℚ) :
    (within_epsilon output reference dimx dimy radius delta).log =
      (scanPoints dimx dimy).filterMap
        (veRecord output reference dimx dimy radius delta) := by
  rw [within_epsilon_eq_flat]

/-- The validator flags an error exactly when some visited window cell
differs by more than delta. -/
theorem within_epsilon_error_iff (output reference : Grid)
    (dimx dimy radius : ℕ) (delta : ℚ) :
    (within_epsilon output reference dimx dimy radius delta).error = true ↔
      ∃ q ∈ scanPoints dimx dimy,
        veOffending output reference dimx dimy radius delta q := by
  rw [within_epsilon_error, List.any_eq_true]
  constructor
  · rintro ⟨q, hq, hb⟩
    refine ⟨q, hq, ?_⟩
    simpa [veOffendingB, veOffending] using hb
  · rintro ⟨q, hq, hb⟩
    refine ⟨q, hq, ?_⟩
    simpa [veOffendingB, veOffending] using hb

/-- The flat scan order visits exactly the flat indices 0, 1, ...,
dimy*dimx - 1, in order. -/
theorem scan_map_gid (dimx dimy : ℕ) :
    (scanPoints dimx dimy).map (fun q => q.1 * dimx + q.2) =
      List.range (dimy * dimx) := by
  induction dimy with
  | zero => simp [scanPoints]
  | succ dy ih =>
      have e1 : scanPoints dimx (dy + 1) =
          scanPoints dimx dy ++ (List.range dimx).map (fun ix => (dy, ix)) := by
        unfold scanPoints
        rw [List.range_succ, List.flatMap_append]
        simp
      rw [e1, List.map_append, ih, List.map_map, Nat.succ_mul, List.range_add]
      simp [Function.comp]

theorem mem_scanPoints {dimx dimy : ℕ} {q : ℕ × ℕ}
    (h : q ∈ scanPoints dimx dimy) : q.1 < dimy ∧ q.2 < dimx := by
  unfold scanPoints at h
  rw [List.mem_flatMap] at h
  obtain ⟨iy, hiy, hq⟩ := h
  rw [List.mem_map] at hq
  obtain ⟨ix, hix, rfl⟩ := hq
  exact ⟨List.mem_range.mp hiy, List.mem_range.mp hix⟩

theorem filterMap_congr_mem {α β : Type} {l : List α} {f g : α → Option β}
    (h : ∀ a ∈ l, f a = g a) : l.filterMap f = l.filterMap g := by
  induction l with
  | nil => rfl
  | cons a t ih =>
      rw [List.filterMap_cons, List.filterMap_cons, h a (List.mem_cons_self _ _),
        ih (fun b hb => h b (List.mem_cons_of_mem _ hb))]

/-- Sums over the scan order rewritten over flat indices. -/
theorem scan_sum_to_linear (dimx dimy : ℕ) (f : ℕ × ℕ → ℚ) (g : ℕ → ℚ)
    (hfg : ∀ q : ℕ × ℕ, q.1 < dimy → q.2 < dimx → f q = g (q.1 * dimx + q.2)) :
    ((scanPoints dimx dimy).map f).sum =
      ((List.range (dimy * dimx)).map g).sum := by
  rw [← scan_map_gid, List.map_map]
  refine congrArg List.sum (List.map_congr_left ?_)
  intro q hq
  obtain ⟨h1, h2⟩ := mem_scanPoints hq
  exact hfg q h1 h2

/-- Filtered emissions over the scan order rewritten over flat indices. -/
theorem scan_filterMap_to_linear {β : Type} (dimx dimy : ℕ)
    (f : ℕ × ℕ → Option β) (g : ℕ → Option β)
    (hfg : ∀ q : ℕ × ℕ, q.1 < dimy → q.2 < dimx → f q = g (q.1 * dimx + q.2)) :
    (scanPoints dimx dimy).filterMap f =
      (List.range (dimy * dimx)).filterMap g := by
  rw [← scan_map_gid, List.filterMap_map]
  refine filterMap_congr_mem ?_
  intro q hq
  obtain ⟨h1, h2⟩ := mem_scanPoints hq
  exact hfg q h1 h2

/-! ### Closed form of the initialization -/

theorem gread_fillConst (nR nC : ℕ) (c : ℚ) (g : Grid) (q : ℕ) :
    gread (fillConst nR nC c g) q = if q < nR * nC then c else gread g q := by
  by_cases hq : q < nR * nC
  · have hC : 0 < nC := by
      rcases Nat.eq_zero_or_pos nC with h | h
      · subst h
        simp at hq
      · exact h
    have hk : q % nC < nC := Nat.mod_lt _ hC
    have hi : q / nC < nR := by
      rw [Nat.div_lt_iff_lt_mul hC]
      omega
    have hdecomp : (q / nC) * nC + q % nC = q := by
      rw [Nat.mul_comm]
      exact Nat.div_add_mod q nC
    rw [if_pos hq, ← hdecomp]
    have h := nested_fold_hit (w := nC) (P := fun _ _ => True) (F := fun _ _ _ => c)
      (b := fun g2 i k => gwrite g2 (i * nC + k) c)
      (fun g2 i k => by rw [if_pos trivial])
      (List.range nR) (List.range nC) (List.nodup_range _) (List.nodup_range _)
      (fun k hk2 => List.mem_range.mp hk2) g (q / nC) (q % nC)
      (List.mem_range.mpr hi) (List.mem_range.mpr hk)
    rw [if_pos trivial] at h
    exact h
  · rw [if_neg hq]
    refine nested_fold_untouched (w := nC) (P := fun _ _ => True) (F := fun _ _ _ => c)
      (b := fun g2 i k => gwrite g2 (i * nC + k) c)
      (fun g2 i k => by rw [if_pos trivial])
      (List.range nR) (List.range nC) g q ?_
    intro i hi k hk _ he
    have hi' := List.mem_range.mp hi
    have hk' := List.mem_range.mp hk
    have h1 : i * nC + k < (i + 1) * nC := by
      rw [Nat.succ_mul]
      omega
    have h2 : (i + 1) * nC ≤ nR * nC := Nat.mul_le_mul_right _ (by omega)
    omega

/-- The next array is all zero after initialization. -/
theorem gread_initNext (nR nC q : ℕ) : gread (initArrays nR nC).2.1 q = 0 := by
  show gread (fillConst nR nC 0 []) q = 0
  rw [gread_fillConst]
  split <;> rfl

/-- The vel array holds 1500^2 on every grid cell after initialization. -/
theorem gread_initVel (nR nC q : ℕ) :
    gread (initArrays nR nC).2.2 q =
      if q < nR * nC then (1500 : ℚ) * 1500 else 0 := by
  show gread (fillConst nR nC ((1500 : ℚ) * 1500) []) q = _
  rw [gread_fillConst]
  split <;> rfl

theorem mem_waveletRows {nR s i : ℕ} :
    i ∈ waveletRows nR s ↔
      s ≤ nR / 2 ∧ nR / 2 - s ≤ i ∧ i < nR / 2 + s := by
  unfold waveletRows
  split
  · next h =>
      rw [List.mem_range'_1]
      omega
  · next h =>
      constructor
      · intro hx
        exact absurd hx (List.not_mem_nil _)
      · intro hx
        exact absurd hx.1 h

theorem mem_waveletCols {nC s k : ℕ} :
    k ∈ waveletCols nC s ↔
      s ≤ nC / 2 ∧ nC / 2 - s ≤ k ∧ k < nC / 2 + s := by
  unfold waveletCols
  split
  · next h =>
      rw [List.mem_range'_1]
      omega
  · next h =>
      constructor
      · intro hx
        exact absurd hx (List.not_mem_nil _)
      · intro hx
        exact absurd hx.1 h

theorem waveletRows_nodup (nR s : ℕ) : (waveletRows nR s).Nodup := by
  unfold waveletRows
  split
  · exact List.nodup_range' _ _
  · exact List.nodup_nil

theorem waveletCols_nodup (nC s : ℕ) : (waveletCols nC s).Nodup := by
  unfold waveletCols
  split
  · exact List.nodup_range' _ _
  · exact List.nodup_nil

theorem mem_waveletCols_lt {nC s k : ℕ} (h : k ∈ waveletCols nC s) : k < nC := by
  rw [mem_waveletCols] at h
  omega

/-- The smallest ring index whose window covers cell (i, k); rings are
written from s = 11 down to s = 0, so the last write a cell receives (the one
gread sees first) is the smallest covering ring. -/
def sNeed (m x : ℕ) : ℕ := max (m - x) (x + 1 - m)

def sMin (nR nC i k : ℕ) : ℕ := max (sNeed (nR / 2) i) (sNeed (nC / 2) k)

theorem sMin_pos (nR nC i k : ℕ) : 1 ≤ sMin nR nC i k := by
  unfold sMin sNeed
  omega

/-- Reading one cell of the ring fold over s = t, t-1, ..., 0. -/
theorem gread_ringsFold (nR nC t : ℕ) (g : Grid) (i k : ℕ) (hk : k < nC) :
    gread (((List.range (t + 1)).reverse).foldl
        (fun h s =>
          (waveletRows nR s).foldl
            (fun h2 i2 =>
              (waveletCols nC s).foldl
                (fun h3 k2 => gwrite h3 (i2 * nC + k2) (wavelet s)) h2) h) g)
      (i * nC + k) =
      if sMin nR nC i k ≤ min t (min (nR / 2) (nC / 2))
      then wavelet (sMin nR nC i k) else gread g (i * nC + k) := by
  induction t generalizing g with
  | zero =>
      have hrow : waveletRows nR 0 = [] := by
        unfold waveletRows
        rw [if_pos (Nat.zero_le _)]
        rfl
      rw [show (List.range 1).reverse = [0] from rfl, List.foldl_cons, List.foldl_nil]
      rw [hrow, List.foldl_nil]
      have := sMin_pos nR nC i k
      rw [if_neg (by omega)]
  | succ t ih =>
      have e : (List.range (t + 1 + 1)).reverse = (t + 1) :: (List.range (t + 1)).reverse := by
        rw [List.range_succ, List.reverse_append]
        rfl
      rw [e, List.foldl_cons, ih]
      have hread : gread
          ((waveletRows nR (t + 1)).foldl
            (fun h2 i2 =>
              (waveletCols nC (t + 1)).foldl
                (fun h3 k2 => gwrite h3 (i2 * nC + k2) (wavelet (t + 1))) h2) g)
          (i * nC + k) =
          if i ∈ waveletRows nR (t + 1) ∧ k ∈ waveletCols nC (t + 1)
          then wavelet (t + 1) else gread g (i * nC + k) := by
        by_cases hm : i ∈ waveletRows nR (t + 1) ∧ k ∈ waveletCols nC (t + 1)
        · rw [if_pos hm]
          have h := nested_fold_hit (w := nC) (P := fun _ _ => True)
            (F := fun _ _ _ => wavelet (t + 1))
            (b := fun g2 i2 k2 => gwrite g2 (i2 * nC + k2) (wavelet (t + 1)))
            (fun g2 i2 k2 => by rw [if_pos trivial])
            (waveletRows nR (t + 1)) (waveletCols nC (t + 1))
            (waveletRows_nodup _ _) (waveletCols_nodup _ _)
            (fun k2 hk2 => mem_waveletCols_lt hk2)
            g i k hm.1 hm.2
          rw [if_pos trivial] at h
          exact h
        · rw [if_neg hm]
          refine nested_fold_untouched (w := nC) (P := fun _ _ => True)
            (F := fun _ _ _ => wavelet (t + 1))
            (b := fun g2 i2 k2 => gwrite g2 (i2 * nC + k2) (wavelet (t + 1)))
            (fun g2 i2 k2 => by rw [if_pos trivial])
            (waveletRows nR (t + 1)) (waveletCols nC (t + 1)) g _ ?_
          intro i2 hi2 k2 hk2 _ he
          obtain ⟨e1, e2⟩ := gid_inj hk (mem_waveletCols_lt hk2) he
          refine hm ⟨?_, ?_⟩
          · rw [e1]
            exact hi2
          · rw [e2]
            exact hk2
      rw [hread]
      by_cases h1 : sMin nR nC i k ≤ min t (min (nR / 2) (nC / 2))
      · rw [if_pos h1, if_pos (by omega)]
      · rw [if_neg h1]
        by_cases h2 : sMin nR nC i k ≤ min (t + 1) (min (nR / 2) (nC / 2))
        · have hsm : sMin nR nC i k = t + 1 := by omega
          have hmem : i ∈ waveletRows nR (t + 1) ∧ k ∈ waveletCols nC (t + 1) := by
            rw [mem_waveletRows, mem_waveletCols]
            unfold sMin sNeed at h1 h2
            omega
          rw [if_pos hmem, if_pos h2, hsm]
        · have hmem : ¬(i ∈ waveletRows nR (t + 1) ∧ k ∈ waveletCols nC (t + 1)) := by
            rw [mem_waveletRows, mem_waveletCols]
            unfold sMin sNeed at h1 h2
            omega
          rw [if_neg hmem, if_neg h2]

/-- Closed form of one cell of the prev array after initialization: the
wavelet tap of the innermost ring window covering the cell, if any ring
written for this grid size covers it, and the zero fill otherwise. -/
theorem gread_initPrev (nR nC i k : ℕ) (hk : k < nC) :
    gread (initArrays nR nC).1 (i * nC + k) =
      if sMin nR nC i k ≤ min 11 (min (nR / 2) (nC / 2))
      then wavelet (sMin nR nC i k) else 0 := by
  have e : (initArrays nR nC).1 =
      ((List.range (11 + 1)).reverse).foldl
        (fun h s =>
          (waveletRows nR s).foldl
            (fun h2 i2 =>
              (waveletCols nC s).foldl
                (fun h3 k2 => gwrite h3 (i2 * nC + k2) (wavelet s)) h2) h)
        (fillConst nR nC 0 []) := rfl
  rw [e, gread_ringsFold nR nC 11 _ i k hk, gread_fillConst]
  split
  · rfl
  · split <;> rfl

/-! ### Remaining helpers for the claims -/

/-- The contents of the physical array prev_base after the serial driver ran
for k iterations starting from (next0, prev0). -/
def cpuPrevPhys (next0 prev0 vel : Grid) (d : ℚ) (nRows nCols k : ℕ) : Grid :=
  if k % 2 = 0 then (iso_2dfd_iteration_cpu vel d nRows nCols k next0 prev0).2
  else (iso_2dfd_iteration_cpu vel d nRows nCols k next0 prev0).1

/-- The physical prev_base array also tracks the corresponding parallel
buffer. -/
theorem prev_phys_agree (next0 prev0 vel : Grid) (d : ℚ) (nR nC k : ℕ) :
    geq (cpuPrevPhys next0 prev0 vel d nR nC k)
        (parallelRun next0 prev0 vel d nR nC k).2 := by
  unfold cpuPrevPhys
  by_cases hk : k % 2 = 0
  · rw [if_pos hk]
    exact ((par_cpu_invariant next0 prev0 vel d nR nC k).1 hk).2
  · rw [if_neg hk]
    have hk1 : k % 2 = 1 := by omega
    exact ((par_cpu_invariant next0 prev0 vel d nR nC k).2 hk1).1

/-- The buffer holding the wave field after j completed steps: the buffer
written by sweep j - 1 (prev_base's initial contents when j = 0). -/
def waveAfter (next0 prev0 vel : Grid) (d : ℚ) (nRows nCols j : ℕ) : Grid :=
  if j % 2 = 1 then (parallelRun next0 prev0 vel d nRows nCols j).1
  else (parallelRun next0 prev0 vel d nRows nCols j).2

theorem mem_scanPoints_of {dimx dimy iy ix : ℕ} (hy : iy < dimy)
    (hx : ix < dimx) : (iy, ix) ∈ scanPoints dimx dimy := by
  unfold scanPoints
  rw [List.mem_flatMap]
  exact ⟨iy, List.mem_range.mpr hy,
    List.mem_map.mpr ⟨ix, List.mem_range.mpr hx, rfl⟩⟩

theorem scanPoints_nodup (dimx dimy : ℕ) : (scanPoints dimx dimy).Nodup := by
  induction dimy with
  | zero => exact List.nodup_nil
  | succ dy ih =>
      have e1 : scanPoints dimx (dy + 1) =
          scanPoints dimx dy ++ (List.range dimx).map (fun ix => (dy, ix)) := by
        unfold scanPoints
        rw [List.range_succ, List.flatMap_append]
        simp
      rw [e1, List.nodup_append]
      refine ⟨ih, ?_, ?_⟩
      · refine List.Nodup.map ?_ (List.nodup_range _)
        intro a b e
        injection e
      · intro q hq1 hq2
        have h1 := (mem_scanPoints hq1).1
        rw [List.mem_map] at hq2
        obtain ⟨ix, _, rfl⟩ := hq2
        simp at h1
  
theorem filterMap_eq_single {α β : Type} {l : List α} {f : α → Option β}
    {a : α} {b : β} (hnd : l.Nodup) (ha : a ∈ l) (hfa : f a = some b)
    (hrest : ∀ x ∈ l, x ≠ a → f x = none) : l.filterMap f = [b] := by
  induction l with
  | nil => cases ha
  | cons x t ih =>
      rw [List.filterMap_cons]
      rcases List.mem_cons.mp ha with rfl | hmem
      · have ht : t.filterMap f = [] :=
          List.filterMap_eq_nil_iff.mpr fun y hy =>
            hrest y (List.mem_cons_of_mem _ hy)
              (fun e => (List.nodup_cons.mp hnd).1 (e ▸ hy))
        rw [hfa, ht]
      · have hx : f x = none :=
          hrest x (List.mem_cons_self _ _)
            (fun e => (List.nodup_cons.mp hnd).1 (e ▸ hmem))
        rw [hx]
        exact ih (List.nodup_cons.mp hnd).2 hmem
          (fun y hy hne => hrest y (List.mem_cons_of_mem _ hy) hne)

theorem map_sum_eq_single {α : Type} {l : List α} {f : α → ℚ} {a : α}
    (hnd : l.Nodup) (ha : a ∈ l)
    (hrest : ∀ x ∈ l, x ≠ a → f x = 0) : (l.map f).sum = f a := by
  induction l with
  | nil => cases ha
  | cons x t ih =>
      rw [List.map_cons, List.sum_cons]
      rcases List.mem_cons.mp ha with rfl | hmem
      · have ht : ∀ y ∈ t, f y = 0 := fun y hy =>
          hrest y (List.mem_cons_of_mem _ hy)
            (fun e => (List.nodup_cons.mp hnd).1 (e ▸ hy))
        have : (t.map f).sum = 0 := by
          rw [List.sum_eq_zero]
          intro y hy
          rw [List.mem_map] at hy
          obtain ⟨z, hz, rfl⟩ := hy
          exact ht z hz
        rw [this, add_zero]
      · have hx : f x = 0 :=
          hrest x (List.mem_cons_self _ _)
            (fun e => (List.nodup_cons.mp hnd).1 (e ▸ hmem))
        rw [hx, zero_add]
        exact ih (List.nodup_cons.mp hnd).2 hmem
          (fun y hy hne => hrest y (List.mem_cons_of_mem _ hy) hne)

/-! ### The claims -/

/-- The validator call of main never flags an error: the two buffers it
compares hold pointwise equal contents. -/
theorem run_validator_error_false (next0 prev0 vel : Grid)
    (nRows nCols nIterations : ℕ) :
    (within_epsilon
        (parallelRun next0 prev0 vel dtDIVdxy nRows nCols nIterations).1
        (cpuNextPhys next0 prev0 vel dtDIVdxy nRows nCols nIterations)
        nRows nCols HALF_LENGTH (1 / 10)).error = false := by
  have hg := dumps_agree next0 prev0 vel dtDIVdxy nRows nCols nIterations
  rw [within_epsilon_error, List.any_eq_false]
  intro q _
  simp only [veOffendingB, veDiff, hg (q.1 * nRows + q.2), sub_self, abs_zero]
  norm_num

/-- C1: for every grid size and iteration count, the parallel driver (the
per-point kernel dispatched over all grid points each step, buffer roles
alternating by step parity) and the serial driver, started from identical
initial prev/next/vel fields, produce final buffers (next_base and next_cpu,
the ones main compares) that agree exactly at every interior point under
this sequential embedding of the dispatch, and the validator as invoked by
main reports error = false. -/
theorem C1_cross_mode_equivalence (next0 prev0 vel : Grid)
    (nRows nCols nIterations : ℕ) :
    (∀ row col, HALF_LENGTH ≤ row → row < nRows - HALF_LENGTH →
       HALF_LENGTH ≤ col → col < nCols - HALF_LENGTH →
       gread (parallelRun next0 prev0 vel dtDIVdxy nRows nCols nIterations).1
           (row * nCols + col) =
         gread (cpuNextPhys next0 prev0 vel dtDIVdxy nRows nCols nIterations)
           (row * nCols + col)) ∧
    (within_epsilon
        (parallelRun next0 prev0 vel dtDIVdxy nRows nCols nIterations).1
        (cpuNextPhys next0 prev0 vel dtDIVdxy nRows nCols nIterations)
        nRows nCols HALF_LENGTH (1 / 10)).error = false := by
  have hg := dumps_agree next0 prev0 vel dtDIVdxy nRows nCols nIterations
  constructor
  · intro row col _ _ _ _
    exact (hg (row * nCols + col)).symm
  · exact run_validator_error_false next0 prev0 vel nRows nCols nIterations

/-- C1 witness: the equivalence instantiated on the program's own 3x3 grid
after two steps. -/
theorem C1_cross_mode_equivalence_witness :
    (gread (parallelRun (initArrays 3 3).2.1 (initArrays 3 3).1
        (initArrays 3 3).2.2 dtDIVdxy 3 3 2).1 (1 * 3 + 1) =
      gread (cpuNextPhys (initArrays 3 3).2.1 (initArrays 3 3).1
        (initArrays 3 3).2.2 dtDIVdxy 3 3 2) (1 * 3 + 1)) ∧
    (within_epsilon
        (parallelRun (initArrays 3 3).2.1 (initArrays 3 3).1
          (initArrays 3 3).2.2 dtDIVdxy 3 3 2).1
        (cpuNextPhys (initArrays 3 3).2.1 (initArrays 3 3).1
          (initArrays 3 3).2.2 dtDIVdxy 3 3 2)
        3 3 HALF_LENGTH (1 / 10)).error = false :=
  ⟨(C1_cross_mode_equivalence (initArrays 3 3).2.1 (initArrays 3 3).1
      (initArrays 3 3).2.2 3 3 2).1 1 1 (by decide) (by decide) (by decide)
      (by decide),
   (C1_cross_mode_equivalence (initArrays 3 3).2.1 (initArrays 3 3).1
      (initArrays 3 3).2.2 3 3 2).2⟩

/-- C2: one kernel application, in either driver, sets the interior cell
gid = row*nCols + col to
2*prev[gid] - next[gid] + (laplacian) * dtDIVdxy * vel[gid], with
dtDIVdxy = (DT*DT)/(DXY*DXY), DT = 0.002 and DXY = 20; the update reads the
old content of next (the value from two steps prior), the leapfrog
recurrence. -/
theorem C2_stencil_formula (next prev vel : Grid) (nRows nCols row col : ℕ)
    (h1 : HALF_LENGTH ≤ row) (h2 : row < nRows - HALF_LENGTH)
    (h3 : HALF_LENGTH ≤ col) (h4 : col < nCols - HALF_LENGTH) :
    (DT = 0.002 ∧ DXY = 20 ∧ dtDIVdxy = (DT * DT) / (DXY * DXY)) ∧
    gread (iso_2dfd_iteration_global row col next prev vel dtDIVdxy nRows nCols)
        (row * nCols + col) =
      2 * gread prev (row * nCols + col) - gread next (row * nCols + col) +
        ((gread prev (row * nCols + col + 1) -
            2 * gread prev (row * nCols + col) +
            gread prev (row * nCols + col - 1)) +
         (gread prev (row * nCols + col + nCols) -
            2 * gread prev (row * nCols + col) +
            gread prev (row * nCols + col - nCols)))
          * dtDIVdxy * gread vel (row * nCols + col) ∧
    gread (cpu_sweep next prev vel dtDIVdxy nRows nCols) (row * nCols + col) =
      2 * gread prev (row * nCols + col) - gread next (row * nCols + col) +
        ((gread prev (row * nCols + col + 1) -
            2 * gread prev (row * nCols + col) +
            gread prev (row * nCols + col - 1)) +
         (gread prev (row * nCols + col + nCols) -
            2 * gread prev (row * nCols + col) +
            gread prev (row * nCols + col - nCols)))
          * dtDIVdxy * gread vel (row * nCols + col) := by
  have eH : HALF_LENGTH = 1 := rfl
  refine ⟨⟨rfl, rfl, rfl⟩, ?_, ?_⟩
  · simp only [iso_2dfd_iteration_global]
    rw [if_pos ⟨h3, h4, h1, h2⟩, gread_gwrite, if_pos rfl]
    ring
  · rw [cpu_sweep_hit next prev vel dtDIVdxy nRows nCols row col
      (by omega) (by omega) (by omega) (by omega)]
    unfold stencilNew
    ring

/-- C2 witness: the formula at the center of a 3x3 grid on empty arrays. -/
theorem C2_stencil_formula_witness :
    (DT = 0.002 ∧ DXY = 20 ∧ dtDIVdxy = (DT * DT) / (DXY * DXY)) ∧
    gread (iso_2dfd_iteration_global 1 1 [] [] [] dtDIVdxy 3 3) (1 * 3 + 1) =
      2 * gread [] (1 * 3 + 1) - gread [] (1 * 3 + 1) +
        ((gread [] (1 * 3 + 1 + 1) - 2 * gread [] (1 * 3 + 1) +
            gread [] (1 * 3 + 1 - 1)) +
         (gread [] (1 * 3 + 1 + 3) - 2 * gread [] (1 * 3 + 1) +
            gread [] (1 * 3 + 1 - 3)))
          * dtDIVdxy * gread [] (1 * 3 + 1) ∧
    gread (cpu_sweep [] [] [] dtDIVdxy 3 3) (1 * 3 + 1) =
      2 * gread [] (1 * 3 + 1) - gread [] (1 * 3 + 1) +
        ((gread [] (1 * 3 + 1 + 1) - 2 * gread [] (1 * 3 + 1) +
            gread [] (1 * 3 + 1 - 1)) +
         (gread [] (1 * 3 + 1 + 3) - 2 * gread [] (1 * 3 + 1) +
            gread [] (1 * 3 + 1 - 3)))
          * dtDIVdxy * gread [] (1 * 3 + 1) :=
  C2_stencil_formula [] [] [] 3 3 1 1 (by decide) (by decide) (by decide)
    (by decide)

/-- C3: neither driver ever writes a halo point: after any number of steps,
all four physical buffers (next_base, prev_base of the parallel pass and
next_cpu, prev_base of the serial pass) hold their initial values at every
point within HALF_LENGTH of a grid edge. -/
theorem C3_halo_invariance (next0 prev0 vel : Grid) (d : ℚ)
    (nRows nCols k row col : ℕ) (hcol : col < nCols)
    (hhalo : row < HALF_LENGTH ∨ nRows - HALF_LENGTH ≤ row ∨
             col < HALF_LENGTH ∨ nCols - HALF_LENGTH ≤ col) :
    (gread (parallelRun next0 prev0 vel d nRows nCols k).1 (row * nCols + col) =
       gread next0 (row * nCols + col) ∧
     gread (parallelRun next0 prev0 vel d nRows nCols k).2 (row * nCols + col) =
       gread prev0 (row * nCols + col)) ∧
    (gread (cpuNextPhys next0 prev0 vel d nRows nCols k) (row * nCols + col) =
       gread next0 (row * nCols + col) ∧
     gread (cpuPrevPhys next0 prev0 vel d nRows nCols k) (row * nCols + col) =
       gread prev0 (row * nCols + col)) := by
  have eH : HALF_LENGTH = 1 := rfl
  have hq : ∀ r c, 1 ≤ r → r < nRows - 1 → 1 ≤ c → c < nCols - 1 →
      row * nCols + col ≠ r * nCols + c := by
    intro r c hr1 hr2 hc1 hc2 he
    obtain ⟨e1, e2⟩ := gid_inj hcol (by omega) he
    omega
  have hpar : ∀ m : ℕ,
      gread (parallelRun next0 prev0 vel d nRows nCols m).1 (row * nCols + col) =
        gread next0 (row * nCols + col) ∧
      gread (parallelRun next0 prev0 vel d nRows nCols m).2 (row * nCols + col) =
        gread prev0 (row * nCols + col) := by
    intro m
    induction m with
    | zero => exact ⟨rfl, rfl⟩
    | succ m ih =>
        rw [parallelRun_succ]
        by_cases hm : m % 2 = 0
        · rw [if_pos hm]
          exact ⟨(step_global_untouched _ _ _ _ _ _ _ hq).trans ih.1, ih.2⟩
        · rw [if_neg hm]
          exact ⟨ih.1, (step_global_untouched _ _ _ _ _ _ _ hq).trans ih.2⟩
  refine ⟨hpar k, ?_, ?_⟩
  · exact (dumps_agree next0 prev0 vel d nRows nCols k _).trans (hpar k).1
  · exact (prev_phys_agree next0 prev0 vel d nRows nCols k _).trans (hpar k).2

/-- C3 witness: halo cell (0, 2) of a 4x4 run for three steps. -/
theorem C3_halo_invariance_witness :
    (gread (parallelRun (initArrays 4 4).2.1 (initArrays 4 4).1
        (initArrays 4 4).2.2 dtDIVdxy 4 4 3).1 (0 * 4 + 2) =
       gread (initArrays 4 4).2.1 (0 * 4 + 2) ∧
     gread (parallelRun (initArrays 4 4).2.1 (initArrays 4 4).1
        (initArrays 4 4).2.2 dtDIVdxy 4 4 3).2 (0 * 4 + 2) =
       gread (initArrays 4 4).1 (0 * 4 + 2)) ∧
    (gread (cpuNextPhys (initArrays 4 4).2.1 (initArrays 4 4).1
        (initArrays 4 4).2.2 dtDIVdxy 4 4 3) (0 * 4 + 2) =
       gread (initArrays 4 4).2.1 (0 * 4 + 2) ∧
     gread (cpuPrevPhys (initArrays 4 4).2.1 (initArrays 4 4).1
        (initArrays 4 4).2.2 dtDIVdxy 4 4 3) (0 * 4 + 2) =
       gread (initArrays 4 4).1 (0 * 4 + 2)) :=
  C3_halo_invariance (initArrays 4 4).2.1 (initArrays 4 4).1
    (initArrays 4 4).2.2 dtDIVdxy 4 4 3 0 2 (by decide) (by decide)

/-- C4 counterexample: with nIterations = 2 on the 3x3 grid, the dumped
buffer next_base (component 1) differs at the interior cell from the buffer
written by the last sweep (the wave field after both steps, waveAfter 2), so
the dumped array is not the final field for even iteration counts. -/
theorem C4_counterexample :
    ¬ (gread (parallelRun (initArrays 3 3).2.1 (initArrays 3 3).1
        (initArrays 3 3).2.2 dtDIVdxy 3 3 2).1 (1 * 3 + 1) =
       gread (waveAfter (initArrays 3 3).2.1 (initArrays 3 3).1
        (initArrays 3 3).2.2 dtDIVdxy 3 3 2) (1 * 3 + 1)) := by
  norm_num [waveAfter, parallelRun, iso_2dfd_step_global,
    iso_2dfd_iteration_global, initArrays, fillConst, waveletFill, waveletRows,
    waveletCols, waveletRings, gread, gwrite, wavelet, dtDIVdxy, DT, DXY,
    HALF_LENGTH]

/-- C4 amended: the dumped buffer next_base is the buffer written by the
last sweep only when nIterations is odd; when nIterations is even (and at
least 1) it is the other buffer, which holds the wave field after
nIterations - 1 steps; next_cpu always matches next_base pointwise. -/
theorem C4_amended (next0 prev0 vel : Grid) (d : ℚ) (nRows nCols n : ℕ)
    (hn : 1 ≤ n) :
    (n % 2 = 1 →
      (parallelRun next0 prev0 vel d nRows nCols n).1 =
        waveAfter next0 prev0 vel d nRows nCols n) ∧
    (n % 2 = 0 →
      (parallelRun next0 prev0 vel d nRows nCols n).1 =
        waveAfter next0 prev0 vel d nRows nCols (n - 1)) ∧
    geq (cpuNextPhys next0 prev0 vel d nRows nCols n)
        (parallelRun next0 prev0 vel d nRows nCols n).1 := by
  refine ⟨?_, ?_, dumps_agree next0 prev0 vel d nRows nCols n⟩
  · intro h
    unfold waveAfter
    rw [if_pos h]
  · intro h
    obtain ⟨m, rfl⟩ : ∃ m, n = m + 1 := ⟨n - 1, by omega⟩
    have hm : m % 2 = 1 := by omega
    unfold waveAfter
    rw [Nat.add_sub_cancel, if_pos hm, parallelRun_succ,
      if_neg (by omega : ¬ m % 2 = 0)]

/-- C4 amended witness: instantiated at two steps on trivial arrays. -/
theorem C4_amended_witness :
    (parallelRun [] [] [] 0 1 1 2).1 = waveAfter [] [] [] 0 1 1 (2 - 1) ∧
    geq (cpuNextPhys [] [] [] 0 1 1 2) (parallelRun [] [] [] 0 1 1 2).1 :=
  ⟨(C4_amended [] [] [] 0 1 1 2 (by decide)).2.1 (by decide),
   (C4_amended [] [] [] 0 1 1 2 (by decide)).2.2⟩

/-- C7: the concrete 10x10 scenario with one sweep: vel is 1500^2 on every
grid cell, interior cell (5,5) changes from its initialized value by exactly
the stencil amount computed from the initialized field (the old next content
being 0), and every halo cell of the swept buffer is exactly 0. -/
theorem C7_concrete_10x10 :
    (∀ gid, gid < 10 * 10 →
       gread (initArrays 10 10).2.2 gid = 1500 * 1500) ∧
    gread (cpu_sweep (initArrays 10 10).2.1 (initArrays 10 10).1
        (initArrays 10 10).2.2 dtDIVdxy 10 10) (5 * 10 + 5) -
      gread (initArrays 10 10).1 (5 * 10 + 5) =
      gread (initArrays 10 10).1 (5 * 10 + 5) +
        ((gread (initArrays 10 10).1 (5 * 10 + 5 + 1) -
            2 * gread (initArrays 10 10).1 (5 * 10 + 5) +
            gread (initArrays 10 10).1 (5 * 10 + 5 - 1)) +
         (gread (initArrays 10 10).1 (5 * 10 + 5 + 10) -
            2 * gread (initArrays 10 10).1 (5 * 10 + 5) +
            gread (initArrays 10 10).1 (5 * 10 + 5 - 10)))
          * dtDIVdxy * gread (initArrays 10 10).2.2 (5 * 10 + 5) ∧
    (∀ row col, row < 10 → col < 10 →
       (row = 0 ∨ row = 9 ∨ col = 0 ∨ col = 9) →
       gread (cpu_sweep (initArrays 10 10).2.1 (initArrays 10 10).1
          (initArrays 10 10).2.2 dtDIVdxy 10 10) (row * 10 + col) = 0) := by
  refine ⟨?_, ?_, ?_⟩
  · intro gid hgid
    rw [gread_initVel, if_pos hgid]
  · rw [cpu_sweep_hit _ _ _ _ _ _ 5 5 (by decide) (by decide) (by decide)
      (by decide)]
    unfold stencilNew
    rw [gread_initNext]
    ring
  · intro row col h10r h10c hhalo
    refine (cpu_sweep_untouched _ _ _ _ _ _ _ ?_).trans (gread_initNext 10 10 _)
    intro i j hi1 hi2 hj1 hj2 he
    obtain ⟨e1, e2⟩ := gid_inj h10c (by omega) he
    omega

/-- C7 witness: the scenario evaluated at vel cell 0 and halo cell (0, 3). -/
theorem C7_concrete_10x10_witness :
    gread (initArrays 10 10).2.2 0 = 1500 * 1500 ∧
    gread (cpu_sweep (initArrays 10 10).2.1 (initArrays 10 10).1
        (initArrays 10 10).2.2 dtDIVdxy 10 10) (0 * 10 + 3) = 0 :=
  ⟨C7_concrete_10x10.1 0 (by decide),
   C7_concrete_10x10.2.2 0 3 (by decide) (by decide) (Or.inl rfl)⟩

/-- C9 counterexample: on the 3x3 grid the initialized prev field is not
symmetric under 180-degree rotation: cell (0,0) holds wavelet tap 1 while its
rotation image (2,2) holds 0 (odd grid sizes shift the written windows). -/
theorem C9_counterexample :
    ¬ (gread (initArrays 3 3).1 (0 * 3 + 0) =
       gread (initArrays 3 3).1 ((3 - 1 - 0) * 3 + (3 - 1 - 0))) := by
  rw [gread_initPrev 3 3 0 0 (by norm_num)]
  rw [show ((3 - 1 - 0) * 3 + (3 - 1 - 0) : ℕ) = 2 * 3 + 2 from rfl,
    gread_initPrev 3 3 2 2 (by norm_num)]
  rw [if_pos (by decide), if_neg (by decide),
    show sMin 3 3 0 0 = 1 from by decide]
  norm_num [wavelet]

/-- C9 amended: for even nRows and even nCols the initialized prev field is
exactly invariant under 180-degree rotation about the grid center. -/
theorem C9_amended (nRows nCols i j : ℕ) (he1 : nRows % 2 = 0)
    (he2 : nCols % 2 = 0) (hi : i < nRows) (hj : j < nCols) :
    gread (initArrays nRows nCols).1 (i * nCols + j) =
      gread (initArrays nRows nCols).1
        ((nRows - 1 - i) * nCols + (nCols - 1 - j)) := by
  rw [gread_initPrev _ _ _ _ hj, gread_initPrev _ _ _ _ (by omega)]
  have hs : sMin nRows nCols i j =
      sMin nRows nCols (nRows - 1 - i) (nCols - 1 - j) := by
    unfold sMin sNeed
    omega
  rw [hs]

/-- C9 amended witness: the symmetry at cell (1, 2) of the 4x4 grid. -/
theorem C9_amended_witness :
    gread (initArrays 4 4).1 (1 * 4 + 2) =
      gread (initArrays 4 4).1 ((4 - 1 - 1) * 4 + (4 - 1 - 2)) :=
  C9_amended 4 4 1 2 (by decide) (by decide) (by decide) (by decide)

set_option maxRecDepth 40000 in
/-- C10 counterexample: on the 10x10 grid every index the wavelet loop
writes is in bounds even though 22 ≤ 10 fails, so in-bounds writing is not
equivalent to nRows ≥ 22 ∧ nCols ≥ 22 (the supposed out-of-bounds rings are
skipped by the unsigned loop-bound comparison, not executed). -/
theorem C10_counterexample :
    ¬ ((((waveletWriteCoords 10 10).all
          fun p => decide (p.1 < 10 ∧ p.2 < 10)) = true) ↔
        (22 ≤ 10 ∧ 22 ≤ 10)) := by decide

/-- C10 amended: for every grid size, every cell the wavelet-injection loop
of initialize writes lies strictly inside the grid: rings whose window would
leave the grid are skipped entirely because the negative loop start converts
to a huge size_t, so the loop condition fails at once. -/
theorem C10_amended :
    ∀ nRows nCols : ℕ, ∀ p ∈ waveletWriteCoords nRows nCols,
      p.1 < nRows ∧ p.2 < nCols := by
  intro nR nC p hp
  unfold waveletWriteCoords at hp
  rw [List.mem_flatMap] at hp
  obtain ⟨s, _, hp⟩ := hp
  rw [List.mem_flatMap] at hp
  obtain ⟨i, hi, hp⟩ := hp
  rw [List.mem_map] at hp
  obtain ⟨k, hk, rfl⟩ := hp
  rw [mem_waveletRows] at hi
  rw [mem_waveletCols] at hk
  constructor
  · show i < nR
    omega
  · show k < nC
    omega

/-- C10 amended witness: cell (0, 0) is written on the 10x10 grid and is in
bounds. -/
theorem C10_amended_witness :
    (0, 0) ∈ waveletWriteCoords 10 10 ∧
    ((0, 0) : ℕ × ℕ).1 < 10 ∧ ((0, 0) : ℕ × ℕ).2 < 10 :=
  ⟨by decide, (C10_amended 10 10 (0, 0) (by decide)).1,
   (C10_amended 10 10 (0, 0) (by decide)).2⟩

theorem veOffendingB_iff (output reference : Grid) (dimx dimy radius : ℕ)
    (delta : ℚ) (q : ℕ × ℕ) :
    veOffendingB output reference dimx dimy radius delta q = true ↔
      veOffending output reference dimx dimy radius delta q := by
  simp [veOffendingB, veOffending]

/-- C5 counterexample: main passes (nRows, nCols) as (dimx, dimy), so on the
non-square grid with 3 rows and 5 columns the validator flags an error for a
pair of grids that agree at every interior cell of the row-major 3x5 grid
(the cells 1*5+1, 1*5+2, 1*5+3, i.e. row 1, cols 1..3, the only cells with
1 <= row < 2 and 1 <= col < 4): they differ only at flat index 4, the halo
cell (row 0, col 4), which lies inside the validator's transposed window. -/
theorem C5_counterexample :
    (within_epsilon [(4, 1)] [] 3 5 1 (1 / 10)).error = true ∧
    gread [(4, 1)] (1 * 5 + 1) = gread ([] : Grid) (1 * 5 + 1) ∧
    gread [(4, 1)] (1 * 5 + 2) = gread ([] : Grid) (1 * 5 + 2) ∧
    gread [(4, 1)] (1 * 5 + 3) = gread ([] : Grid) (1 * 5 + 3) := by
  refine ⟨?_, by decide, by decide, by decide⟩
  rw [within_epsilon_error_iff]
  refine ⟨(1, 1), mem_scanPoints_of (by norm_num) (by norm_num),
    ⟨by norm_num, by norm_num, by norm_num, by norm_num⟩, ?_⟩
  show (1 : ℚ) / 10 < veDiff [(4, 1)] [] 3 (1, 1)
  norm_num [veDiff, gread]

/-- C5 amended: the validator, as invoked by main with (nRows, nCols) in the
(dimx, dimy) positions, walks the flat array as nCols rows of length nRows:
it accumulates sum_of_squares exactly over the flat indices p with
p % nRows and p / nRows inside the radius window, and emits one record per
offending such cell, in flat scan order, with printed coordinates
(p % nRows, p / nRows); it flags an error exactly when it emits a record.
For square grids this compared set is exactly the true interior. -/
theorem C5_amended (output reference : Grid) (nRows nCols radius : ℕ)
    (delta : ℚ) :
    (within_epsilon output reference nRows nCols radius delta).norm2 =
      ((List.range (nRows * nCols)).map fun p =>
        if radius ≤ p % nRows ∧ p % nRows < nRows - radius ∧
           radius ≤ p / nRows ∧ p / nRows < nCols - radius then
          |gread reference p - gread output p| *
            |gread reference p - gread output p|
        else 0).sum ∧
    (within_epsilon output reference nRows nCols radius delta).log =
      ((List.range (nRows * nCols)).filterMap fun p =>
        if radius ≤ p % nRows ∧ p % nRows < nRows - radius ∧
           radius ≤ p / nRows ∧ p / nRows < nCols - radius ∧
           delta < |gread reference p - gread output p| then
          some (p % nRows, p / nRows, gread output p, gread reference p,
            |gread reference p - gread output p|)
        else none) ∧
    ((within_epsilon output reference nRows nCols radius delta).error = true ↔
      (within_epsilon output reference nRows nCols radius delta).log ≠ []) := by
  have hmod : ∀ q : ℕ × ℕ, q.2 < nRows → (q.1 * nRows + q.2) % nRows = q.2 := by
    intro q hq
    rw [Nat.mul_comm, Nat.mul_add_mod, Nat.mod_eq_of_lt hq]
  have hdiv : ∀ q : ℕ × ℕ, q.2 < nRows → (q.1 * nRows + q.2) / nRows = q.2 / nRows + q.1 := by
    intro q hq
    rw [Nat.add_comm, Nat.add_mul_div_right _ _ (by omega : 0 < nRows)]
  refine ⟨?_, ?_, ?_⟩
  · rw [within_epsilon_norm2, show nRows * nCols = nCols * nRows from Nat.mul_comm _ _]
    refine scan_sum_to_linear nRows nCols _ _ ?_
    intro q h1 h2
    unfold veContrib veInterior veDiff
    rw [hmod q h2, hdiv q h2, Nat.div_eq_of_lt h2, Nat.zero_add]
  · rw [within_epsilon_log, show nRows * nCols = nCols * nRows from Nat.mul_comm _ _]
    refine scan_filterMap_to_linear nRows nCols _ _ ?_
    intro q h1 h2
    unfold veRecord veOffending veInterior veDiff
    rw [hmod q h2, hdiv q h2, Nat.div_eq_of_lt h2, Nat.zero_add]
    exact if_congr (by tauto) rfl rfl
  · rw [within_epsilon_error, within_epsilon_log, List.any_eq_true]
    constructor
    · rintro ⟨q, hq, hb⟩
      intro hnil
      rw [List.filterMap_eq_nil_iff] at hnil
      have hnone := hnil q hq
      unfold veRecord at hnone
      rw [if_pos ((veOffendingB_iff _ _ _ _ _ _ _).mp hb)] at hnone
      cases hnone
    · intro hnil
      by_cases hex : ∃ q ∈ scanPoints nRows nCols,
          veOffendingB output reference nRows nCols radius delta q = true
      · exact hex
      · exfalso
        apply hnil
        rw [List.filterMap_eq_nil_iff]
        intro q hq
        unfold veRecord
        rw [if_neg]
        intro hoff
        exact hex ⟨q, hq, (veOffendingB_iff _ _ _ _ _ _ _).mpr hoff⟩

/-- C6: fed two grids that agree everywhere except at exactly one window
cell, where they differ by exactly 0.2, with tolerance delta = 0.1, the
validator returns error = true, emits exactly the one diagnostic record for
that cell, and sqrt(sum_of_squares) = 0.2. -/
theorem C6_error_detection (output reference : Grid)
    (dimx dimy radius iy ix : ℕ) (h1 : radius ≤ ix) (h2 : ix < dimx - radius)
    (h3 : radius ≤ iy) (h4 : iy < dimy - radius)
    (hdiff : |gread reference (iy * dimx + ix) -
        gread output (iy * dimx + ix)| = 1 / 5)
    (hrest : ∀ q : ℕ, q ≠ iy * dimx + ix → gread output q = gread reference q) :
    (within_epsilon output reference dimx dimy radius (1 / 10)).error = true ∧
    (within_epsilon output reference dimx dimy radius (1 / 10)).log =
      [(ix, iy, gread output (iy * dimx + ix),
        gread reference (iy * dimx + ix), 1 / 5)] ∧
    (within_epsilon output reference dimx dimy radius (1 / 10)).norm2 = 1 / 25 ∧
    Real.sqrt ((within_epsilon output reference dimx dimy radius
        (1 / 10)).norm2 : ℝ) = 1 / 5 := by
  have hxd : ix < dimx := by omega
  have hyd : iy < dimy := by omega
  have hmem : (iy, ix) ∈ scanPoints dimx dimy := mem_scanPoints_of hyd hxd
  have hint : veInterior dimx dimy radius (iy, ix) := ⟨h1, h2, h3, h4⟩
  have hdq : veDiff output reference dimx (iy, ix) = 1 / 5 := hdiff
  have hoff : veOffending output reference dimx dimy radius (1 / 10) (iy, ix) :=
    ⟨hint, by rw [hdq]; norm_num⟩
  have hothers : ∀ q ∈ scanPoints dimx dimy, q ≠ (iy, ix) →
      veDiff output reference dimx q = 0 := by
    intro q hq hne
    obtain ⟨hq1, hq2⟩ := mem_scanPoints hq
    have hgid : q.1 * dimx + q.2 ≠ iy * dimx + ix := by
      intro he
      obtain ⟨e1, e2⟩ := gid_inj hq2 hxd he
      apply hne
      obtain ⟨qa, qb⟩ := q
      simp only at e1 e2
      rw [e1, e2]
    unfold veDiff
    rw [hrest _ hgid]
    simp
  have hn2 : (within_epsilon output reference dimx dimy radius (1 / 10)).norm2
      = 1 / 25 := by
    have hsum := map_sum_eq_single (f := veContrib output reference dimx dimy radius)
      (scanPoints_nodup dimx dimy) hmem ?rest
    case rest =>
      intro x hx hne
      unfold veContrib
      split
      · rw [hothers x hx hne]
        ring
      · rfl
    rw [within_epsilon_norm2, hsum]
    unfold veContrib
    rw [if_pos hint, hdq]
    norm_num
  refine ⟨?_, ?_, hn2, ?_⟩
  · rw [within_epsilon_error_iff]
    exact ⟨(iy, ix), hmem, hoff⟩
  · rw [within_epsilon_log]
    refine filterMap_eq_single (scanPoints_nodup _ _) hmem ?_ ?_
    · unfold veRecord
      rw [if_pos hoff, hdq]
    · intro x hx hne
      unfold veRecord
      rw [if_neg]
      intro hoffx
      have hz := hothers x hx hne
      have h2x := hoffx.2
      rw [hz] at h2x
      norm_num at h2x
  · rw [hn2]
    push_cast
    rw [show ((1 : ℝ) / 25) = (1 / 5) ^ 2 by norm_num]
    exact Real.sqrt_sq (by norm_num)

/-- C6 witness: a 3x3 window with the single differing cell at (1,1), values
0.2 and 0. -/
theorem C6_error_detection_witness :
    (within_epsilon [(4, 1 / 5)] [] 3 3 1 (1 / 10)).error = true ∧
    (within_epsilon [(4, 1 / 5)] [] 3 3 1 (1 / 10)).log =
      [(1, 1, gread [(4, 1 / 5)] (1 * 3 + 1), gread [] (1 * 3 + 1), 1 / 5)] ∧
    (within_epsilon [(4, 1 / 5)] [] 3 3 1 (1 / 10)).norm2 = 1 / 25 ∧
    Real.sqrt ((within_epsilon [(4, 1 / 5)] [] 3 3 1 (1 / 10)).norm2 : ℝ)
      = 1 / 5 :=
  C6_error_detection [(4, 1 / 5)] [] 3 3 1 1 1 (by norm_num) (by norm_num)
    (by norm_num) (by norm_num) (by norm_num [gread])
    (fun q hq => by
      have hq4 : q ≠ 4 := by omega
      simp [gread, hq4])

/-- The outcome of main once the three arguments parsed. -/
theorem mainModel_parsed (argv : List String) (a b c : ℤ)
    (h : parseArgs argv = some (a, b, c)) :
    mainModel argv =
      { usagePrinted := false,
        exitCode :=
          if (within_epsilon
              (parallelRun (initArrays (a % (2 : ℤ) ^ 64).toNat (b % (2 : ℤ) ^ 64).toNat).2.1
                (initArrays (a % (2 : ℤ) ^ 64).toNat (b % (2 : ℤ) ^ 64).toNat).1
                (initArrays (a % (2 : ℤ) ^ 64).toNat (b % (2 : ℤ) ^ 64).toNat).2.2
                dtDIVdxy (a % (2 : ℤ) ^ 64).toNat (b % (2 : ℤ) ^ 64).toNat
                (c % (2 : ℤ) ^ 32).toNat).1
              (cpuNextPhys (initArrays (a % (2 : ℤ) ^ 64).toNat (b % (2 : ℤ) ^ 64).toNat).2.1
                (initArrays (a % (2 : ℤ) ^ 64).toNat (b % (2 : ℤ) ^ 64).toNat).1
                (initArrays (a % (2 : ℤ) ^ 64).toNat (b % (2 : ℤ) ^ 64).toNat).2.2
                dtDIVdxy (a % (2 : ℤ) ^ 64).toNat (b % (2 : ℤ) ^ 64).toNat
                (c % (2 : ℤ) ^ 32).toNat)
              (a % (2 : ℤ) ^ 64).toNat (b % (2 : ℤ) ^ 64).toNat HALF_LENGTH
              (1 / 10)).error
          then 1 else 0,
        validatorError :=
          some (within_epsilon
              (parallelRun (initArrays (a % (2 : ℤ) ^ 64).toNat (b % (2 : ℤ) ^ 64).toNat).2.1
                (initArrays (a % (2 : ℤ) ^ 64).toNat (b % (2 : ℤ) ^ 64).toNat).1
                (initArrays (a % (2 : ℤ) ^ 64).toNat (b % (2 : ℤ) ^ 64).toNat).2.2
                dtDIVdxy (a % (2 : ℤ) ^ 64).toNat (b % (2 : ℤ) ^ 64).toNat
                (c % (2 : ℤ) ^ 32).toNat).1
              (cpuNextPhys (initArrays (a % (2 : ℤ) ^ 64).toNat (b % (2 : ℤ) ^ 64).toNat).2.1
                (initArrays (a % (2 : ℤ) ^ 64).toNat (b % (2 : ℤ) ^ 64).toNat).1
                (initArrays (a % (2 : ℤ) ^ 64).toNat (b % (2 : ℤ) ^ 64).toNat).2.2
                dtDIVdxy (a % (2 : ℤ) ^ 64).toNat (b % (2 : ℤ) ^ 64).toNat
                (c % (2 : ℤ) ^ 32).toNat)
              (a % (2 : ℤ) ^ 64).toNat (b % (2 : ℤ) ^ 64).toNat HALF_LENGTH
              (1 / 10)).error } := by
  unfold mainModel
  rw [h]

/-- C8: any invocation whose first three arguments are missing or fail stoi
prints the usage message and exits with code 1; every run that completes
exits 0 when the validator reports error = false and 1 when it reports
error = true. -/
theorem C8_exit_codes (argv : List String) :
    ((argToInt argv 1 = none ∨ argToInt argv 2 = none ∨ argToInt argv 3 = none) →
       mainModel argv =
         { usagePrinted := true, exitCode := 1, validatorError := none }) ∧
    (∀ t : ℤ × ℤ × ℤ, parseArgs argv = some t →
       (mainModel argv).usagePrinted = false ∧
       ((mainModel argv).validatorError = some false →
          (mainModel argv).exitCode = 0) ∧
       ((mainModel argv).validatorError = some true →
          (mainModel argv).exitCode = 1)) := by
  constructor
  · intro h
    have hp : parseArgs argv = none := by
      unfold parseArgs
      rcases h with h | h | h
      · rw [h]
      · rw [h]
        cases hA : argToInt argv 1 <;> rfl
      · rw [h]
        cases hA : argToInt argv 1 <;> cases hB : argToInt argv 2 <;> rfl
    unfold mainModel
    rw [hp]
  · intro t ht
    obtain ⟨a, b, c⟩ := t
    rw [mainModel_parsed argv a b c ht]
    refine ⟨rfl, ?_, ?_⟩
    · intro he
      have he' := Option.some.inj he
      simp only [he']
      simp
    · intro he
      have he' := Option.some.inj he
      simp only [he']
      simp

/-- C8 witness: a non-numeric second argument exits 1 with usage printed; a
parsed 1x1 run reports error = false and exits 0. -/
theorem C8_exit_codes_witness :
    mainModel ["p", "x", "1", "1"] =
      { usagePrinted := true, exitCode := 1, validatorError := none } ∧
    (mainModel ["p", "1", "1", "1"]).exitCode = 0 := by
  refine ⟨(C8_exit_codes ["p", "x", "1", "1"]).1 (Or.inl (by decide)), ?_⟩
  have hv : (mainModel ["p", "1", "1", "1"]).validatorError = some false := by
    rw [mainModel_parsed ["p", "1", "1", "1"] 1 1 1 (by decide)]
    rw [run_validator_error_false]
  exact ((C8_exit_codes ["p", "1", "1", "1"]).2 (1, 1, 1) (by decide)).2.1 hv

/-- C5 amended witness: the characterisation instantiated on the 3x5 grid
pair of the counterexample. -/
theorem C5_amended_witness :
    (within_epsilon [(4, 1)] [] 3 5 1 (1 / 10)).norm2 =
      ((List.range (3 * 5)).map fun p =>
        if 1 ≤ p % 3 ∧ p % 3 < 3 - 1 ∧ 1 ≤ p / 3 ∧ p / 3 < 5 - 1 then
          |gread [] p - gread [(4, 1)] p| * |gread [] p - gread [(4, 1)] p|
        else 0).sum ∧
    (within_epsilon [(4, 1)] [] 3 5 1 (1 / 10)).log =
      ((List.range (3 * 5)).filterMap fun p =>
        if 1 ≤ p % 3 ∧ p % 3 < 3 - 1 ∧ 1 ≤ p / 3 ∧ p / 3 < 5 - 1 ∧
           (1 : ℚ) / 10 < |gread [] p - gread [(4, 1)] p| then
          some (p % 3, p / 3, gread [(4, 1)] p, gread [] p,
            |gread [] p - gread [(4, 1)] p|)
        else none) ∧
    ((within_epsilon [(4, 1)] [] 3 5 1 (1 / 10)).error = true ↔
      (within_epsilon [(4, 1)] [] 3 5 1 (1 / 10)).log ≠ []) :=
  C5_amended [(4, 1)] [] 3 5 1 (1 / 10)
